import Mathlib

/-!
Verification development for the DataTails front-end data-processing core
(`src/Frontend/src/components/Charts/LineChart.js`, plus the NetworkGraph
renderer component).  The JavaScript functions are shallowly embedded as
total Lean functions over a JSON-like value type; JavaScript regular
expressions are embedded through a small backtracking parser whose list of
results is ordered by the regex engine's preference (greedy alternatives
first, lazy alternatives shortest-first), so that the first element of the
result list coincides with the match JavaScript would produce.
-/

namespace DataTails

/-! ## JavaScript character classes and elementary string operations -/

/-- JavaScript whitespace class `\s` (restricted to the ASCII part, which is
the only part produced by the inputs considered here). -/
def jsWs (c : Char) : Bool :=
  c = ' ' || c = '\t' || c = '\n' || c = '\r' || c = '\x0b' || c = '\x0c'

/-- JavaScript word-character class `\w` = `[A-Za-z0-9_]`. -/
def jsWord (c : Char) : Bool :=
  (('a' ≤ c && c ≤ 'z') || ('A' ≤ c && c ≤ 'Z') || c.isDigit || c = '_')

/-- ASCII lower-casing, as done by `String.prototype.toLowerCase` on the
ASCII inputs considered here. -/
def lowerChar (c : Char) : Char :=
  if 'A' ≤ c && c ≤ 'Z' then Char.ofNat (c.toNat + 32) else c

def lowerStr (s : List Char) : List Char := s.map lowerChar

/-- `String.prototype.includes`: substring containment. -/
def listContains : List Char → List Char → Bool
  | hay, pat =>
    pat.isPrefixOf hay ||
      match hay with
      | [] => false
      | _ :: t => listContains t pat

/-- Case-insensitive substring containment (for `/…/i` alternation probes). -/
def listContainsCI (hay pat : List Char) : Bool := listContains (lowerStr hay) (lowerStr pat)

/-- `String.prototype.trim`: strip JavaScript whitespace from both ends. -/
def jsTrim (s : List Char) : List Char :=
  ((s.dropWhile jsWs).reverse.dropWhile jsWs).reverse

/-- Split a character list at every occurrence of `sep` (like
`String.prototype.split('\n')` for a one-character separator). -/
def splitOnChar (sep : Char) (s : List Char) : List (List Char) :=
  s.foldr (fun c acc =>
    match acc with
    | [] => [[c]]
    | cur :: rest => if c = sep then [] :: (cur :: rest) else (c :: cur) :: rest) [[]]

/-- Digits of a character list interpreted in base 10. -/
def digitsToNat (ds : List Char) : ℕ :=
  ds.foldl (fun acc c => acc * 10 + (c.toNat - '0'.toNat)) 0

/-- Numeric-string index parse (the canonical-index test used by array
property access). -/
def strToNat (s : String) : Option ℕ :=
  let l := s.data
  if !l.isEmpty && l.all Char.isDigit then some (digitsToNat l) else none

/-- Value of an integer part together with a fractional digit string,
e.g. `decimalToRat "0" "95" = 19/20`. -/
def decimalToRat (intPart fracPart : List Char) : ℚ :=
  (digitsToNat intPart : ℚ) + (digitsToNat fracPart : ℚ) / ((10 : ℚ) ^ fracPart.length)

/-- `parseFloat` on a string made of digits and dots (the shape captured by
the `[0-9.]+` and `\d+(\.\d+)?` groups of the source): parses the longest
sensible decimal prefix and yields `none` for `NaN` (e.g. on `"."`). -/
def parseFloatDigits (s : List Char) : Option ℚ :=
  let ip := s.takeWhile Char.isDigit
  let rest := s.drop ip.length
  match rest with
  | '.' :: rest2 =>
      let fp := rest2.takeWhile Char.isDigit
      if ip.isEmpty && fp.isEmpty then none else some (decimalToRat ip fp)
  | _ => if ip.isEmpty then none else some (digitsToNat ip : ℚ)

/-- A successful `parseFloat` result: a finite double, modelled exactly as
a rational, or one of the two infinities. -/
inductive JsFloat where
  | fin (q : ℚ)
  | inf (neg : Bool)
deriving DecidableEq, Repr

/-- The IEEE-754 double rounding step of the parse, at the granularity
needed here: a magnitude at or beyond the overflow threshold
`2^1024 - 2^970` gives the signed infinity, anything below stays the exact
rational. -/
def overflowToInf (sgnNeg : Bool) (mag : ℚ) : Option JsFloat :=
  if (2 : ℚ) ^ 1024 - 2 ^ 970 ≤ mag then some (.inf sgnNeg)
  else some (.fin (if sgnNeg then -mag else mag))

/-- Full `parseFloat`: leading whitespace, optional sign, then either the
`Infinity` literal or decimal digits with optional fraction and exponent;
`none` for `NaN`.  A finite magnitude at or beyond the IEEE-754 double
overflow threshold `2^1024 - 2^970` rounds to the signed infinity, as it
does for inputs like `"1e999"`.  (Rounding of magnitudes below the
threshold, including gradual underflow, is not modelled: those parse to the
exact rational.) -/
def jsParseFloat (s : List Char) : Option JsFloat :=
  let s1 := s.dropWhile jsWs
  let (sgnNeg, s2) : Bool × List Char :=
    match s1 with
    | '-' :: r => (true, r)
    | '+' :: r => (false, r)
    | _ => (false, s1)
  if ("Infinity".data).isPrefixOf s2 then some (.inf sgnNeg)
  else
    let ip := s2.takeWhile Char.isDigit
    let s3 := s2.drop ip.length
    let (fp, s4) : List Char × List Char :=
      match s3 with
      | '.' :: r => (r.takeWhile Char.isDigit, r.drop (r.takeWhile Char.isDigit).length)
      | _ => ([], s3)
    if ip.isEmpty && fp.isEmpty then none
    else
      let base := decimalToRat ip fp
      let expPart : Option (Int) :=
        match s4 with
        | 'e' :: r | 'E' :: r =>
            let (esgn, r2) : Int × List Char :=
              match r with
              | '-' :: rr => (-1, rr)
              | '+' :: rr => (1, rr)
              | _ => (1, r)
            let ed := r2.takeWhile Char.isDigit
            if ed.isEmpty then none else some (esgn * (digitsToNat ed : Int))
        | _ => none
      let mag : ℚ :=
        match expPart with
        | some e => base * (10 : ℚ) ^ e
        | none => base
      overflowToInf sgnNeg mag

/-- Decimal representation of a natural number (used for JavaScript template
strings such as `` `node_${index}` ``). -/
def natDigits (n : ℕ) : List Char :=
  if _ : n < 10 then [Nat.digitChar n]
  else natDigits (n / 10) ++ [Nat.digitChar (n % 10)]
decreasing_by
  exact Nat.div_lt_self (by omega) (by omega)

def natStr (n : ℕ) : String := ⟨natDigits n⟩

/-- Rendering of a rational as JavaScript renders a number, for the (integer
or finite-decimal) values that actually occur in the modelled pipeline. -/
def ratToStr (q : ℚ) : String :=
  if q.den = 1 then
    (if q.num < 0 then "-" ++ natStr q.num.natAbs else natStr q.num.natAbs)
  else
    -- finite-decimal denominators occur only via parsed decimals; render
    -- with enough fractional digits to be exact when possible
    let n := q.num.natAbs
    let sign := if q.num < 0 then "-" else ""
    sign ++ natStr (n / q.den) ++ "." ++ natStr (n % q.den * 10 ^ 6 / q.den)

/-! ## Backtracking matchers for the embedded regular expressions

`MP α` is a matcher anchored at the head of the input: it returns every way
the pattern can match a prefix, as `(captured, rest)` pairs, ordered by the
JavaScript regex engine's preference (alternatives in written order, greedy
quantifiers longest first, lazy quantifiers shortest first).  The overall
match JavaScript produces is the head of this list. -/

def MP (α : Type) : Type := List Char → List (α × List Char)

instance : Monad MP where
  pure a := fun l => [(a, l)]
  bind m f := fun l => (m l).flatMap (fun p => f p.1 p.2)

instance : Alternative MP where
  failure := fun _ => []
  orElse a b := fun l => a l ++ b () l

/-- Consume one character satisfying `p`. -/
def mpCh (p : Char → Bool) : MP Char := fun l =>
  match l with
  | [] => []
  | c :: rest => if p c then [(c, rest)] else []

/-- Consume the literal string `s` (case sensitive). -/
def mpLit (s : List Char) : MP Unit := fun l =>
  if s.isPrefixOf l then [((), l.drop s.length)] else []

/-- Consume the literal string `s` case-insensitively, capturing the original
slice of the input. -/
def mpLitCI (s : List Char) : MP (List Char) := fun l =>
  let sl := l.take s.length
  if (lowerStr s) = (lowerStr sl) && sl.length = s.length then [(sl, l.drop s.length)]
  else []

/-- Greedy `p*` over a character class: longest capture first. -/
def mpStarGreedy (p : Char → Bool) : MP (List Char) := fun l =>
  let r := l.takeWhile p
  (List.range (r.length + 1)).reverse.map fun k => (r.take k, l.drop k)

/-- Greedy `p+` over a character class. -/
def mpPlusGreedy (p : Char → Bool) : MP (List Char) := fun l =>
  let r := l.takeWhile p
  ((List.range r.length).reverse.map fun k => (r.take (k + 1), l.drop (k + 1)))

/-- Lazy `p*?` over a character class: shortest capture first. -/
def mpStarLazy (p : Char → Bool) : MP (List Char) := fun l =>
  let r := l.takeWhile p
  (List.range (r.length + 1)).map fun k => (r.take k, l.drop k)

/-- Lazy `p+?` over a character class. -/
def mpPlusLazy (p : Char → Bool) : MP (List Char) := fun l =>
  let r := l.takeWhile p
  ((List.range r.length).map fun k => (r.take (k + 1), l.drop (k + 1)))

/-- Exactly `n` characters of class `p` (regex `p{n}`). -/
def mpExact (p : Char → Bool) (n : ℕ) : MP (List Char) := fun l =>
  let sl := l.take n
  if sl.length = n && sl.all p then [(sl, l.drop n)] else []

/-- Between `lo` and `hi` characters of class `p`, greedy (regex `p{lo,hi}`). -/
def mpRangeGreedy (p : Char → Bool) (lo hi : ℕ) : MP (List Char) := fun l =>
  let r := (l.takeWhile p).take hi
  ((List.range (r.length + 1)).reverse.filterMap fun k =>
    if lo ≤ k then some (r.take k, l.drop k) else none)

/-- Greedy option (regex `m?`): try `m` first, then the empty match. -/
def mpOpt {α : Type} (m : MP α) : MP (Option α) := fun l =>
  (m l).map (fun p => (some p.1, p.2)) ++ [(none, l)]

/-- Zero-width assertion that the next character (if any) fails `p`
(used for `\b` after a word character). -/
def mpNotAhead (p : Char → Bool) : MP Unit := fun l =>
  match l with
  | [] => [((), [])]
  | c :: _ => if p c then [] else [((), l)]

/-- Zero-width end-of-input assertion (regex `$` without the `m` flag). -/
def mpEnd : MP Unit := fun l =>
  match l with
  | [] => [((), [])]
  | _ => []

/-- Ordered alternation over a list of matchers (regex `a|b|…`). -/
def mpAltList {α : Type} (ms : List (MP α)) : MP α := fun l =>
  ms.flatMap (fun m => m l)

/-- First match scanning left to right from the head (the search the regex
engine performs when a pattern is not anchored). -/
def scanFirst {α : Type} (m : MP α) : List Char → Option (α × List Char)
  | [] => ((m []).head?)
  | l@(_ :: t) =>
    match (m l).head? with
    | some x => some x
    | none => scanFirst m t

/-- Whether an unanchored match exists anywhere in the input. -/
def scanTest {α : Type} (m : MP α) (l : List Char) : Bool :=
  (scanFirst m l).isSome

/-- All matches of an `exec` loop over a `/g` regex: repeatedly find the
leftmost match and resume after it (advancing one character on an empty
match, as `lastIndex` handling does). -/
def scanAll {α : Type} (m : MP α) : ℕ → List Char → List α
  | 0, _ => []
  | fuel + 1, l =>
    match scanFirst m l with
    | none => []
    | some (a, rest) =>
        a :: scanAll m fuel (if rest.length = l.length then rest.tail else rest)

/-- Matches of a multiline `^…` pattern: attempt the matcher at the start of
the input and immediately after every newline. -/
def lineStartTest {α : Type} (m : MP α) : List Char → Bool :=
  fun l => go l true
where
  go : List Char → Bool → Bool
  | [], atStart => atStart && !((m []).isEmpty)
  | l@(c :: t), atStart =>
    (atStart && !((m l).isEmpty)) || go t (c = '\n')

/-- Unanchored test for a pattern beginning with `\b` before a word
character: attempt the matcher at every position not preceded by a word
character. -/
def boundaryTest {α : Type} (m : MP α) : List Char → Bool :=
  fun l => go l true
where
  go : List Char → Bool → Bool
  | [], atB => atB && !((m []).isEmpty)
  | l@(c :: t), atB =>
    (atB && !((m l).isEmpty)) || go t (!jsWord c)

/-! ## The dynamically-typed input values

`JVal` models the JSON-like values the pipeline receives (`data` and
`query` are `any` in the source).  JSON has no `NaN`, `Infinity` or
`undefined` literal, so numbers are modelled as rationals; an absent field
is modelled by a failed lookup. -/

inductive JVal where
  | null : JVal
  | bool (b : Bool) : JVal
  | num (q : ℚ) : JVal
  | str (s : String) : JVal
  | arr (xs : List JVal) : JVal
  | obj (fields : List (String × JVal)) : JVal

/-- JavaScript truthiness. `null`, `false`, `0`, `""` are falsy; every
array and object is truthy. -/
def jsTruthy : JVal → Bool
  | .null => false
  | .bool b => b
  | .num q => q ≠ 0
  | .str s => s ≠ ""
  | .arr _ => true
  | .obj _ => true

/-- `typeof v === 'object'` (true for `null`, arrays and objects). -/
def jsIsObjectType : JVal → Bool
  | .null => true
  | .arr _ => true
  | .obj _ => true
  | _ => false

/-- Property read `v[k]`, yielding `JVal.null` for an absent property
(standing in for `undefined`, which is equally falsy).  Array elements are
addressable by their decimal index, as in JavaScript. -/
def jGet (v : JVal) (k : String) : JVal :=
  match v with
  | .obj fields =>
    match fields.find? (fun p => p.1 = k) with
    | some p => p.2
    | none => .null
  | .arr xs =>
    match strToNat k with
    | some i => (xs.get? i).getD .null
    | none => .null
  | _ => .null

/-- Key-presence test `k in v` for values of object type; `none` models the
`TypeError` raised by `in` on `null`. -/
def jHasKey (v : JVal) (k : String) : Option Bool :=
  match v with
  | .obj fields => some (fields.any (fun p => p.1 = k))
  | .arr xs =>
    some ((match strToNat k with
           | some i => i < xs.length
           | none => false) || k = "length")
  | .null => none
  | _ => none

/-- `Object.keys`, failing on `null` as the source would. -/
def jKeys (v : JVal) : Option (List String) :=
  match v with
  | .obj fields => some (fields.map (·.1))
  | .arr xs => some (xs.enum.map (fun p => natStr p.1))
  | .null => none
  | _ => some []

mutual
/-- String coercion `String(v)` for the values that reach it in the
pipeline. -/
def jsToString : JVal → String
  | .null => "null"
  | .bool b => if b then "true" else "false"
  | .num q => ratToStr q
  | .str s => s
  | .arr xs => String.intercalate "," (jsToStringList xs)
  | .obj _ => "[object Object]"
def jsToStringList : List JVal → List String
  | [] => []
  | x :: xs => jsToString x :: jsToStringList xs
end

/-! ## Output data model -/

/-- One flat chart record.  The source builds plain objects; the optional
fields model the properties that some extractors attach.  `extra` carries
the remaining string-valued properties (`month`, `year`, `fromCurrency`,
`toCurrency`, `fullText`), which no consumer reads back. -/
structure CanonicalRecord where
  name : String
  value : Option ℚ
  order : Option ℤ := none
  isPercentage : Option Bool := none
  currency : Option String := none
  originalAmount : Option ℚ := none
  extra : List (String × String) := []
deriving DecidableEq, Repr

/-- JavaScript truthiness of a possibly-`NaN` numeric value (`none` models
`NaN`, which is falsy, as is `0`). -/
def qTruthy : Option ℚ → Bool
  | some q => q ≠ 0
  | none => false

/-- `v || d` for a numeric value: the value when truthy, otherwise `d`. -/
def vOr (v : Option ℚ) (d : ℚ) : ℚ :=
  match v with
  | some q => if q ≠ 0 then q else d
  | none => d

/-- A hierarchy node `{name, value?, children?, info?}`.  `children = some []`
and `children = none` are distinguished exactly as an empty array is
distinguished from an absent property. -/
inductive HNode where
  | node (name : String) (value : Option ℚ) (children : Option (List HNode))
      (info : Option String) : HNode

def HNode.name : HNode → String
  | .node n _ _ _ => n

def HNode.value : HNode → Option ℚ
  | .node _ v _ _ => v

def HNode.children : HNode → Option (List HNode)
  | .node _ _ cs _ => cs

def HNode.info : HNode → Option String
  | .node _ _ _ i => i

/-- The children list, with an absent property read as empty. -/
def HNode.kids : HNode → List HNode
  | .node _ _ cs _ => cs.getD []

/-- A node is a leaf when it has no `children` property or an empty one. -/
def HNode.isLeaf (t : HNode) : Bool := t.kids.isEmpty

/-- The `data` field of a processing result: a flat record list, a
hierarchy tree, or a raw input array passed through unchanged (the
structured-array branch of `processArrayData`). -/
inductive CData where
  | flat (recs : List CanonicalRecord) : CData
  | tree (t : HNode) : CData
  | raw (xs : List JVal) : CData

/-- Metadata produced by `extractSemanticMetadata`. -/
structure Metadata where
  valueLabel : String := "Value"
  xAxisLabel : String := "Category"
  yAxisLabel : String := "Value"
  unit : String := ""
  valueType : String := "numeric"
deriving DecidableEq, Repr

/-- The canonical result `processChartData` hands to every projector. -/
structure CanonicalResult where
  data : CData
  title : String
  source : String
  isHierarchical : Bool := false
  isInvalid : Bool := false
  message : Option String := none
  metadata : Option Metadata := none

/-! ## Detectors (`contains…Data` probes) -/

def chars (s : String) : List Char := s.data

def isBullet3 (c : Char) : Bool := c = '*' || c = '+' || c = '-'

def isBullet4 (c : Char) : Bool := c = '-' || c = '•' || c = '*' || c = '+'

def isSpaceTab (c : Char) : Bool := c = ' ' || c = '\t'

/-- `containsCurrencyData` (source lines 2687–2703): currency codes, currency
symbols adjacent to digits, or the words "exchange rate" / "currency". -/
def containsCurrencyData (text : String) : Bool :=
  let l := chars text
  let symNum (sym : Char) : MP Unit := do
    _ ← mpCh (· = sym); _ ← mpStarGreedy jsWs; _ ← mpCh Char.isDigit; pure ()
  let numSym (sym : Char) : MP Unit := do
    _ ← mpCh Char.isDigit; _ ← mpStarGreedy jsWs; _ ← mpCh (· = sym); pure ()
  (["USD", "EUR", "GBP", "JPY", "CAD"].any fun k => listContainsCI l (chars k)) ||
  scanTest (symNum '$') l || scanTest (numSym '$') l ||
  scanTest (symNum '€') l || scanTest (numSym '€') l ||
  scanTest (symNum '£') l || scanTest (numSym '£') l ||
  scanTest (symNum '¥') l || scanTest (numSym '¥') l ||
  listContainsCI l (chars "exchange rate") || listContainsCI l (chars "currency")

def monthNamesFull : List String :=
  ["January", "February", "March", "April", "May", "June", "July", "August",
   "September", "October", "November", "December"]

def monthNamesAbbrev : List String :=
  ["Jan", "Feb", "Mar", "Apr", "May", "Jun", "Jul", "Aug", "Sep", "Oct", "Nov", "Dec"]

/-- `containsTimeData` (source lines 2815–2827): month names (full or
three-letter, case-insensitive, with no word boundary), years `20\d\d`,
slash or ISO dates, and quarters. -/
def containsTimeData (text : String) : Bool :=
  let l := chars text
  let yearWord : MP Unit := do
    _ ← mpLit (chars "20"); _ ← mpCh Char.isDigit; _ ← mpCh Char.isDigit
    mpNotAhead jsWord
  let slashDate : MP Unit := do
    _ ← mpRangeGreedy Char.isDigit 1 2; _ ← mpCh (· = '/')
    _ ← mpRangeGreedy Char.isDigit 1 2; _ ← mpCh (· = '/')
    _ ← mpRangeGreedy Char.isDigit 2 4; mpNotAhead jsWord
  let isoDate : MP Unit := do
    _ ← mpExact Char.isDigit 4; _ ← mpCh (· = '-')
    _ ← mpExact Char.isDigit 2; _ ← mpCh (· = '-')
    _ ← mpExact Char.isDigit 2; mpNotAhead jsWord
  let quarterShort : MP Unit := do
    _ ← mpCh (fun c => lowerChar c = 'q'); _ ← mpCh (fun c => '1' ≤ c && c ≤ '4')
    mpNotAhead jsWord
  let quarterLong : MP Unit := do
    _ ← mpLitCI (chars "quarter "); _ ← mpCh Char.isDigit; mpNotAhead jsWord
  (monthNamesFull.any fun m => listContainsCI l (chars m)) ||
  (monthNamesAbbrev.any fun m => listContainsCI l (chars m)) ||
  boundaryTest yearWord l ||
  boundaryTest slashDate l ||
  boundaryTest isoDate l ||
  boundaryTest quarterShort l ||
  boundaryTest quarterLong l

/-- `containsPercentageData` (source line 2965): a `%` sign or
`\d+(\.\d+)?\s*percent`. -/
def containsPercentageData (text : String) : Bool :=
  let l := chars text
  let percentWord : MP Unit := do
    _ ← mpPlusGreedy Char.isDigit
    _ ← mpOpt (do _ ← mpCh (· = '.'); _ ← mpPlusGreedy Char.isDigit; pure ())
    _ ← mpStarGreedy jsWs
    _ ← mpLitCI (chars "percent")
    pure ()
  listContains l (chars "%") || scanTest percentWord l

/-- `containsBulletPoints` (source line 3029): a line beginning (after
spaces/tabs) with a bullet character or a numbered item, each followed by a
space or tab. -/
def containsBulletPoints (text : String) : Bool :=
  let l := chars text
  let bulletLine : MP Unit := do
    _ ← mpStarGreedy isSpaceTab; _ ← mpCh isBullet4; _ ← mpCh isSpaceTab; pure ()
  let numberLine : MP Unit := do
    _ ← mpStarGreedy isSpaceTab; _ ← mpPlusGreedy Char.isDigit
    _ ← mpCh (· = '.'); _ ← mpCh isSpaceTab; pure ()
  lineStartTest bulletLine l || lineStartTest numberLine l

def hierarchyKeywords : List String :=
  ["structure", "hierarchy", "nested", "parent", "child", "tree", "branch", "root",
   "descendant", "ancestor", "organization", "breakdown", "composition", "contains",
   "hierarchical", "level", "tier", "layer", "subordinate", "superordinate", "category",
   "subcategory", "classification", "taxonomy", "class", "subclass", "group", "subgroup",
   "department", "division", "section", "subsection", "part", "subpart", "component",
   "subcomponent", "element", "subelement", "unit", "subunit", "module", "submodule"]

/-- `containsHierarchicalData` (source lines 2032–2076): keyword probe,
markdown-pattern probe and structural-repetition probe, OR-ed together. -/
def containsHierarchicalData (text : String) : Bool :=
  let l := chars text
  let lowerText := lowerStr l
  let hasHierarchyKeyword := hierarchyKeywords.any fun k => listContains lowerText (chars k)
  let bulletStart : MP Unit := do
    _ ← mpStarGreedy jsWs; _ ← mpCh isBullet3; _ ← mpPlusGreedy jsWs; pure ()
  let numberedStart : MP Unit := do
    _ ← mpStarGreedy jsWs; _ ← mpPlusGreedy Char.isDigit; _ ← mpCh (· = '.')
    _ ← mpPlusGreedy jsWs; pure ()
  let indentStart : MP Unit := do
    _ ← mpCh jsWs; _ ← mpCh jsWs; _ ← mpStarGreedy jsWs; _ ← mpCh (fun c => !jsWs c)
    pure ()
  let sepThenBullet : MP Unit := do
    _ ← mpCh (fun c => c = ':' || c = '-'); _ ← mpStarGreedy jsWs; _ ← mpCh (· = '\n')
    _ ← mpStarGreedy jsWs; _ ← mpCh isBullet3; pure ()
  let hasHierarchicalPatterns :=
    (listContains l (chars "**") && listContains l (chars ":")) ||
    lineStartTest bulletStart l ||
    lineStartTest numberedStart l ||
    lineStartTest indentStart l ||
    scanTest sepThenBullet l ||
    (["parent", "child", "children", "sub", "subsidiary", "division", "department"].any
      fun k => listContainsCI l (chars k))
  let markerAlts : MP Unit := mpAltList
    [do _ ← mpStarGreedy jsWs; _ ← mpCh isBullet3; pure (),
     do _ ← mpStarGreedy jsWs; _ ← mpPlusGreedy Char.isDigit; _ ← mpCh (· = '.'); pure (),
     do _ ← mpStarGreedy jsWs; _ ← mpCh (fun c => 'A' ≤ c && c ≤ 'Z'); _ ← mpCh (· = '.')
        pure (),
     do _ ← mpStarGreedy jsWs; _ ← mpCh (fun c => 'a' ≤ c && c ≤ 'z'); _ ← mpCh (· = '.')
        pure (),
     do _ ← mpStarGreedy jsWs; _ ← mpPlusGreedy (fun c => c = 'I' || c = 'V' || c = 'X')
        _ ← mpCh (· = '.'); pure (),
     do _ ← mpStarGreedy jsWs; _ ← mpPlusGreedy (fun c => c = 'i' || c = 'v' || c = 'x')
        _ ← mpCh (· = '.'); pure ()]
  let nestedBullets : MP Unit := do
    _ ← mpStarGreedy jsWs; _ ← mpCh isBullet3; _ ← mpPlusGreedy jsWs
    _ ← mpStarGreedy (· ≠ '\n'); _ ← mpCh (· = '\n')
    _ ← mpCh jsWs; _ ← mpCh jsWs; _ ← mpStarGreedy jsWs; _ ← mpCh isBullet3; pure ()
  let nestedNumbers : MP Unit := do
    _ ← mpStarGreedy jsWs; _ ← mpPlusGreedy Char.isDigit; _ ← mpCh (· = '.')
    _ ← mpPlusGreedy jsWs
    _ ← mpStarGreedy (· ≠ '\n'); _ ← mpCh (· = '\n')
    _ ← mpCh jsWs; _ ← mpCh jsWs; _ ← mpStarGreedy jsWs
    _ ← mpPlusGreedy Char.isDigit; _ ← mpCh (· = '.'); pure ()
  let hasHierarchicalStructure :=
    lineStartTest markerAlts l ||
    lineStartTest nestedBullets l ||
    lineStartTest nestedNumbers l
  hasHierarchyKeyword || hasHierarchicalPatterns || hasHierarchicalStructure

/-! ## Extractors -/

def strOf (l : List Char) : String := String.mk l

def upperChar (c : Char) : Char :=
  if 'a' ≤ c && c ≤ 'z' then Char.ofNat (c.toNat - 32) else c

/-- Capitalisation of the first character, as in
`key.charAt(0).toUpperCase() + key.slice(1)`. -/
def capitalize (l : List Char) : List Char :=
  match l with
  | [] => []
  | c :: r => upperChar c :: r

/-- Matcher for `(\d+(?:\.\d+)?)`, capturing the matched characters. -/
def mpDecimal : MP (List Char) := do
  let d ← mpPlusGreedy Char.isDigit
  let f ← mpOpt (do _ ← mpCh (· = '.'); mpPlusGreedy Char.isDigit)
  pure (match f with | some fd => d ++ '.' :: fd | none => d)

/-- Matcher for `([0-9.]+)`. -/
def mpNumRun : MP (List Char) := mpPlusGreedy (fun c => Char.isDigit c || c = '.')

/-- Split on runs of separator characters, as JavaScript
`String.prototype.split` with a `/[…]+/` regex does on inputs that do not
end with a separator. -/
def splitRuns (p : Char → Bool) : ℕ → List Char → List (List Char)
  | 0, _ => []
  | _, [] => []
  | fuel + 1, l =>
    let seg := l.takeWhile (fun c => !p c)
    let rest := (l.drop seg.length).dropWhile p
    seg :: splitRuns p fuel rest

/-- `generateSampleData`'s record set (source lines 3205–3217): four fixed
records plus a fifth whose name is the human-readable message. -/
def sampleRecords (message : String) : List CanonicalRecord :=
  [{ name := "Sample A", value := some 400 },
   { name := "Sample B", value := some 300 },
   { name := "Sample C", value := some 200 },
   { name := "Sample D", value := some 100 },
   { name := message, value := some 50 }]

/-- `generateSampleData` (source lines 3205–3217).  Note that the result has
no `message` property: the message only appears as the fifth record's name. -/
def generateSampleData (message : String) : CanonicalResult :=
  { data := .flat (sampleRecords message),
    title := "Sample Data",
    source := "sample" }

/-- `extractPercentageData` (source lines 2972–3024): the two match loops for
`Term: X%` and `Term (X%)`, concatenated, with a keyword-derived title. -/
def extractPercentageData (text : String) : CanonicalResult :=
  let l := chars text
  let lower := lowerStr l
  let p1 : MP (List Char × List Char) := do
    let g1 ← mpPlusLazy (fun c => jsWord c || jsWs c)
    _ ← mpCh (· = ':'); _ ← mpStarGreedy jsWs
    let num ← mpDecimal
    _ ← mpStarGreedy jsWs; _ ← mpCh (· = '%')
    pure (g1, num)
  let p2 : MP (List Char × List Char) := do
    let g1 ← mpPlusLazy (fun c => jsWord c || jsWs c)
    _ ← mpStarGreedy jsWs; _ ← mpCh (· = '(')
    let num ← mpDecimal
    _ ← mpStarGreedy jsWs; _ ← mpCh (· = '%'); _ ← mpCh (· = ')')
    pure (g1, num)
  let toRec : List Char × List Char → Option CanonicalRecord := fun p =>
    (parseFloatDigits p.2).map fun v =>
      { name := strOf (jsTrim p.1), value := some v, isPercentage := some true }
  let results :=
    (scanAll p1 (l.length + 1) l).filterMap toRec ++
    (scanAll p2 (l.length + 1) l).filterMap toRec
  let title :=
    if listContains lower (chars "market") && listContains lower (chars "share") then
      "Market Share"
    else if listContains lower (chars "growth") then "Growth Percentages"
    else if listContains lower (chars "distribution") then "Distribution Percentages"
    else "Percentage Data"
  { data := .flat (if results.isEmpty then sampleRecords "No percentage data found" else results),
    title := title,
    source := "percentage data" }

/-- The `monthOrder` table of `extractTimeData`, in source insertion order. -/
def monthOrderPairs : List (String × ℕ) :=
  [("january", 1), ("jan", 1), ("february", 2), ("feb", 2), ("march", 3), ("mar", 3),
   ("april", 4), ("apr", 4), ("may", 5), ("june", 6), ("jun", 6), ("july", 7), ("jul", 7),
   ("august", 8), ("aug", 8), ("september", 9), ("sep", 9), ("october", 10), ("oct", 10),
   ("november", 11), ("nov", 11), ("december", 12), ("dec", 12)]

/-- `extractTimeData` (source lines 2832–2960): months, then quarters, then
years, each sorted by the detected ordinal; sample fallback otherwise. -/
def extractTimeData (text : String) : CanonicalResult :=
  let l := chars text
  let lower := lowerStr l
  let fuel := l.length + 1
  let pMonth : MP (List Char × List Char) := do
    let m ← mpAltList ((monthNamesFull ++ monthNamesAbbrev).map fun s => mpLitCI (chars s))
    _ ← mpStarLazy (· ≠ ':')
    _ ← mpCh (· = ':'); _ ← mpStarGreedy jsWs
    let num ← mpNumRun
    pure (m, num)
  let monthResults := (scanAll pMonth fuel l).filterMap fun p =>
    (parseFloatDigits p.2).map fun v =>
      let ml := lowerStr p.1
      let entry := monthOrderPairs.find? fun q => (chars q.1).isPrefixOf ml
      let ord : ℤ := match entry with | some q => (q.2 : ℤ) | none => 0
      let nm : String := match entry with
        | some q => if p.1.length ≤ 3 then strOf (capitalize (chars q.1)) else strOf p.1
        | none => strOf p.1
      ({ name := nm, value := some v, order := some ord } : CanonicalRecord)
  if !monthResults.isEmpty then
    let sorted := monthResults.insertionSort fun a b => a.order.getD 0 ≤ b.order.getD 0
    let title :=
      if listContains lower (chars "temperature") || listContains lower (chars "weather") then
        "Monthly Temperature Data"
      else if listContains lower (chars "sales") || listContains lower (chars "revenue") then
        "Monthly Sales Data"
      else if listContains lower (chars "growth") || listContains lower (chars "gdp") then
        "Monthly Growth Data"
      else "Monthly Data"
    { data := .flat sorted, title := title, source := "time series data" }
  else
    let pQuarter : MP (Char × List Char) := mpAltList
      [do
        _ ← mpCh (fun c => lowerChar c = 'q')
        let d ← mpCh (fun c => '1' ≤ c && c ≤ '4')
        _ ← mpStarLazy (· ≠ ':')
        _ ← mpCh (· = ':'); _ ← mpStarGreedy jsWs
        let num ← mpNumRun
        pure (d, num),
       do
        _ ← mpLitCI (chars "Quarter")
        _ ← mpStarGreedy jsWs
        let d ← mpCh (fun c => '1' ≤ c && c ≤ '4')
        _ ← mpStarLazy (· ≠ ':')
        _ ← mpCh (· = ':'); _ ← mpStarGreedy jsWs
        let num ← mpNumRun
        pure (d, num)]
    let quarterResults := (scanAll pQuarter fuel l).filterMap fun p =>
      (parseFloatDigits p.2).map fun v =>
        ({ name := "Q" ++ strOf [p.1], value := some v,
           order := some ((p.1.toNat - '0'.toNat : ℕ) : ℤ) } : CanonicalRecord)
    if !quarterResults.isEmpty then
      let sorted := quarterResults.insertionSort fun a b => a.order.getD 0 ≤ b.order.getD 0
      { data := .flat sorted, title := "Quarterly Data", source := "time series data" }
    else
      let pYear : MP (List Char × List Char) := do
        _ ← mpLit (chars "20")
        let d1 ← mpCh Char.isDigit
        let d2 ← mpCh Char.isDigit
        _ ← mpStarLazy (· ≠ ':')
        _ ← mpCh (· = ':'); _ ← mpStarGreedy jsWs
        let num ← mpNumRun
        pure (['2', '0', d1, d2], num)
      let yearResults := (scanAll pYear fuel l).filterMap fun p =>
        (parseFloatDigits p.2).map fun v =>
          ({ name := strOf p.1, value := some v,
             order := some ((digitsToNat p.1 : ℕ) : ℤ) } : CanonicalRecord)
      if !yearResults.isEmpty then
        let sorted := yearResults.insertionSort fun a b => a.order.getD 0 ≤ b.order.getD 0
        { data := .flat sorted, title := "Yearly Data", source := "time series data" }
      else generateSampleData "No time series data found"

/-- `extractBulletPointData` (source lines 3036–3072): a per-line match of
`- Term: N` / `N. Term: N`, the first matching pattern winning per line. -/
def extractBulletPointData (text : String) : CanonicalResult :=
  let lines := splitOnChar '\n' (chars text)
  let p1 : MP (List Char × List Char) := do
    _ ← mpStarGreedy isSpaceTab; _ ← mpCh isBullet4; _ ← mpPlusGreedy isSpaceTab
    let g1 ← mpStarLazy (· ≠ '\n')
    _ ← mpCh (· = ':'); _ ← mpStarGreedy jsWs
    let num ← mpDecimal
    pure (g1, num)
  let p2 : MP (List Char × List Char) := do
    _ ← mpStarGreedy isSpaceTab; _ ← mpPlusGreedy Char.isDigit; _ ← mpCh (· = '.')
    _ ← mpPlusGreedy isSpaceTab
    let g1 ← mpStarLazy (· ≠ '\n')
    _ ← mpCh (· = ':'); _ ← mpStarGreedy jsWs
    let num ← mpDecimal
    pure (g1, num)
  let fromMatch : List Char × List Char → Option CanonicalRecord := fun p =>
    (parseFloatDigits p.2).map fun v =>
      { name := strOf (jsTrim p.1), value := some v }
  let results := lines.filterMap fun line =>
    match (p1 line).head? with
    | some (m, _) => fromMatch m
    | none =>
      match (p2 line).head? with
      | some (m, _) => fromMatch m
      | none => none
  { data := .flat (if results.isEmpty then sampleRecords "No bullet point data found" else results),
    title := "Bullet Point Data",
    source := "bullet points" }

/-- The alternation of number words in `extractWordNumbers`'s regex, in
written order (so `"sixteen"` is matched as `"six"`, exactly as the
JavaScript alternation behaves). -/
def numberWordsAll : List String :=
  ["one", "two", "three", "four", "five", "six", "seven", "eight", "nine", "ten",
   "eleven", "twelve", "thirteen", "fourteen", "fifteen", "sixteen", "seventeen",
   "eighteen", "nineteen", "twenty", "thirty", "forty", "fifty", "sixty", "seventy",
   "eighty", "ninety"]

def numberUnits : List String :=
  ["one", "two", "three", "four", "five", "six", "seven", "eight", "nine"]

/-- The `wordToNumber` table of `extractWordNumbers`. -/
def wordToNumberPairs : List (String × ℕ) :=
  [("zero", 0), ("one", 1), ("two", 2), ("three", 3), ("four", 4), ("five", 5),
   ("six", 6), ("seven", 7), ("eight", 8), ("nine", 9), ("ten", 10),
   ("eleven", 11), ("twelve", 12), ("thirteen", 13), ("fourteen", 14), ("fifteen", 15),
   ("sixteen", 16), ("seventeen", 17), ("eighteen", 18), ("nineteen", 19), ("twenty", 20),
   ("thirty", 30), ("forty", 40), ("fifty", 50), ("sixty", 60), ("seventy", 70),
   ("eighty", 80), ("ninety", 90)]

/-- `extractWordNumbers` (source lines 3128–3167). -/
def extractWordNumbers (text : String) : List CanonicalRecord :=
  let l := chars text
  let pw : MP (List Char × List Char) := do
    let g1 ← mpPlusGreedy (fun c => c ≠ ':' && c ≠ '\n')
    _ ← mpCh (· = ':'); _ ← mpStarGreedy jsWs
    let w1 ← mpAltList (numberWordsAll.map fun s => mpLitCI (chars s))
    let w2 ← mpOpt (do
      let sep ← mpCh (fun c => c = '-' || jsWs c)
      let u ← mpAltList (numberUnits.map fun s => mpLitCI (chars s))
      pure (sep :: u))
    pure (g1, w1 ++ w2.getD [])
  (scanAll pw (l.length + 1) l).filterMap fun p =>
    let numberWord := lowerStr p.2
    let value : ℕ :=
      if listContains numberWord (chars "-") || listContains numberWord (chars " ") then
        match splitRuns (fun c => c = '-' || jsWs c) (numberWord.length + 1) numberWord with
        | [a, b] =>
          match wordToNumberPairs.find? (fun q => chars q.1 = a),
                wordToNumberPairs.find? (fun q => chars q.1 = b) with
          | some qa, some qb => qa.2 + qb.2
          | _, _ => 0
        | _ => 0
      else
        match wordToNumberPairs.find? (fun q => chars q.1 = numberWord) with
        | some qa => qa.2
        | none => 0
    if value > 0 then some { name := strOf (jsTrim p.1), value := some (value : ℚ) } else none

/-- `extractSentenceNumbers` (source lines 3172–3200). -/
def extractSentenceNumbers (text : String) : List CanonicalRecord :=
  let l := chars text
  let sentences := (splitRuns (fun c => c = '.' || c = '!' || c = '?') (l.length + 1) l).filter
    fun s => (jsTrim s).length > 0
  sentences.filterMap fun s =>
    match scanFirst mpDecimal s with
    | some (num, _) =>
      (parseFloatDigits num).map fun v =>
        let t := jsTrim s
        let words := splitRuns jsWs (t.length + 1) t
        let name :=
          if words.length > 5 then
            String.intercalate " " ((words.take 5).map strOf) ++ "..."
          else strOf t
        ({ name := name, value := some v, extra := [("fullText", strOf t)] } : CanonicalRecord)
    | none => none

/-- `extractGeneralTextData` (source lines 3077–3123): `Term: N` / `Term - N`
pairs, spelled-out numbers, then sentence-number extraction, then the sample
fallback. -/
def extractGeneralTextData (text : String) : CanonicalResult :=
  let l := chars text
  let pkv : MP (List Char × List Char) := do
    let g1 ← mpPlusGreedy (fun c => c ≠ ':' && c ≠ '\n' && c ≠ '-')
    _ ← mpCh (fun c => c = ':' || c = '-'); _ ← mpStarGreedy jsWs
    let num ← mpDecimal
    pure (g1, num)
  let kvResults := (scanAll pkv (l.length + 1) l).filterMap fun p =>
    let term := jsTrim p.1
    match parseFloatDigits p.2 with
    | some v =>
      if term.length > 2 then some ({ name := strOf term, value := some v } : CanonicalRecord)
      else none
    | none => none
  let results := kvResults ++ extractWordNumbers text
  if results.length > 0 then
    { data := .flat results, title := "Extracted Data", source := "text analysis" }
  else
    let sentenceResults := extractSentenceNumbers text
    if sentenceResults.length > 0 then
      { data := .flat sentenceResults, title := "Text Analysis", source := "sentence analysis" }
    else generateSampleData "No data patterns found in text"

/-- `extractCurrencyData` (source lines 2708–2810): month-based exchange
rates, then generic exchange rates, then labelled currency values, then the
hard-coded USD special case; the first stage with results wins. -/
def extractCurrencyData (text : String) : CanonicalResult :=
  let l := chars text
  let fuel := l.length + 1
  let pEx1 : MP (List Char × List Char × List Char × List Char × List Char × List Char) := do
    let g1 ← mpPlusGreedy jsWord
    _ ← mpStarGreedy jsWs
    let y ← mpExact Char.isDigit 4
    _ ← mpCh (· = ':'); _ ← mpStarGreedy jsWs
    let a1 ← mpPlusGreedy Char.isDigit
    _ ← mpStarGreedy jsWs
    let c1 ← mpExact jsWord 3
    _ ← mpStarGreedy jsWs; _ ← mpCh (· = '='); _ ← mpStarGreedy jsWs
    let a2 ← mpNumRun
    _ ← mpStarGreedy jsWs
    let c2 ← mpExact jsWord 3
    pure (g1, y, a1, c1, a2, c2)
  let pEx2 : MP (List Char × List Char × List Char × List Char) := do
    let a1 ← mpPlusGreedy Char.isDigit
    _ ← mpStarGreedy jsWs
    let c1 ← mpExact jsWord 3
    _ ← mpStarGreedy jsWs; _ ← mpCh (· = '='); _ ← mpStarGreedy jsWs
    let a2 ← mpNumRun
    _ ← mpStarGreedy jsWs
    let c2 ← mpExact jsWord 3
    pure (a1, c1, a2, c2)
  let curSym : Char → Bool := fun c => c = '€' || c = '$' || c = '£' || c = '¥'
  let pVal : MP CanonicalRecord := mpAltList
    [do
      let g1 ← mpPlusGreedy (fun c => jsWord c || jsWs c)
      _ ← mpCh (· = ':'); _ ← mpStarGreedy jsWs
      let sym ← mpCh curSym
      _ ← mpStarGreedy jsWs
      let num ← mpNumRun
      pure { name := strOf (jsTrim g1), value := parseFloatDigits num,
             currency := some (strOf [sym]) },
     do
      let sym ← mpCh curSym
      _ ← mpStarGreedy jsWs
      let num ← mpNumRun
      _ ← mpStarGreedy jsWs
      let g6 ← mpPlusGreedy (fun c => jsWord c || jsWs c)
      pure { name := strOf (jsTrim g6), value := parseFloatDigits num,
             currency := some (strOf [sym]) }]
  let ex1 := scanAll pEx1 fuel l
  let results1 := ex1.map fun m =>
    match m with
    | (g1, y, a1, c1, a2, c2) =>
      ({ name := strOf g1 ++ " " ++ strOf c1 ++ "-" ++ strOf c2,
         value := parseFloatDigits a2,
         originalAmount := parseFloatDigits a1,
         extra := [("month", strOf g1), ("year", strOf y),
                   ("fromCurrency", strOf c1), ("toCurrency", strOf c2)] } : CanonicalRecord)
  let results2 :=
    if results1.isEmpty then
      (scanAll pEx2 fuel l).map fun m =>
        match m with
        | (a1, c1, a2, c2) =>
          ({ name := strOf c1 ++ " to " ++ strOf c2,
             value := parseFloatDigits a2,
             originalAmount := parseFloatDigits a1,
             extra := [("fromCurrency", strOf c1), ("toCurrency", strOf c2)] } : CanonicalRecord)
    else []
  let results3 :=
    if results1.isEmpty && results2.isEmpty then scanAll pVal fuel l else []
  let base := results1 ++ results2 ++ results3
  let special :=
    if base.isEmpty && listContains l (chars "USD") &&
       (listContains l (chars "January") || listContains l (chars "July")) &&
       (listContains l (chars "EUR") || listContains l (chars "CAD") ||
        listContains l (chars "JPY")) then
      ["January", "July"].flatMap fun mo =>
        ["EUR", "CAD", "JPY"].filterMap fun cur =>
          let pSp : MP (List Char) := do
            _ ← mpLitCI (chars mo)
            _ ← mpStarLazy (· ≠ ':')
            _ ← mpCh (· = ':')
            _ ← mpStarLazy (· ≠ '\n')
            _ ← mpLitCI (chars "USD")
            _ ← mpStarGreedy jsWs; _ ← mpCh (· = '='); _ ← mpStarGreedy jsWs
            let a ← mpNumRun
            _ ← mpStarGreedy jsWs
            _ ← mpLitCI (chars cur)
            pure a
          (scanFirst pSp l).map fun m =>
            ({ name := mo ++ " USD-" ++ cur, value := parseFloatDigits m.1,
               extra := [("month", mo), ("currency", cur)] } : CanonicalRecord)
    else []
  let results := base ++ special
  let title :=
    match ex1.getLast? with
    | some (g1, y, _, _, _, _) => strOf g1 ++ " " ++ strOf y ++ " Exchange Rates"
    | none =>
      if !results2.isEmpty then "Currency Exchange Rates"
      else if !special.isEmpty then "USD Exchange Rates"
      else "Currency Data"
  { data := .flat (if results.isEmpty then sampleRecords "No currency data found" else results),
    title := title,
    source := "currency data" }

/-! ## Hierarchical extraction -/

/-- Plain node constructor (no `info` property). -/
def hn (name : String) (value : Option ℚ) (children : Option (List HNode)) : HNode :=
  .node name value children none

/-- Append a child to a node, creating the `children` array if absent
(`if (!node.children) node.children = []; node.children.push(item)`). -/
def HNode.appendChild (t : HNode) (child : HNode) : HNode :=
  match t with
  | .node n v cs i => .node n v (some (cs.getD [] ++ [child])) i

/-- Update the `j`-th child of a node in place. -/
def HNode.modifyChild (t : HNode) (j : ℕ) (f : HNode → HNode) : HNode :=
  match t with
  | .node n v cs i =>
    .node n v (cs.map fun l =>
      match l.get? j with
      | some c => l.set j (f c)
      | none => l) i

/-- Update the `i`-th node of a top-level list in place. -/
def modifyAt (ts : List HNode) (i : ℕ) (f : HNode → HNode) : List HNode :=
  match ts.get? i with
  | some t => ts.set i (f t)
  | none => ts

/-- `detectTitleFromText` (source lines 2466–2479). -/
def detectTitleFromText (text : String) : String :=
  let lower := lowerStr (chars text)
  let has := fun (k : String) => listContains lower (chars k)
  if has "film" || has "cinema" || has "movie" then "Film Industry Hierarchy"
  else if has "studio" || has "organizational structure" then "Hollywood Studio Structure"
  else if has "dramatic structure" || has "storytelling" then "Dramatic Structure Hierarchy"
  else "Hierarchical Data"

/-- State of the `processStudioStructure` line loop: the accumulated
top-level children, the position of `currentCategory` (an index into the
tops) and the position of `currentStudio` (a top index plus an optional
child index when the studio sits inside a category). -/
structure StudioSt where
  tops : List HNode := []
  catIdx : Option ℕ := none
  studioLoc : Option (ℕ × Option ℕ) := none

/-- One line of `processStudioStructure` (source lines 2273–2336). -/
def studioStep (st : StudioSt) (rawLine : List Char) : StudioSt :=
  let line := jsTrim rawLine
  if line.isEmpty then st
  else
    -- category: /\*\*([^*]+):\*\*/ (unanchored)
    let pCat : MP (List Char) := do
      _ ← mpLit (chars "**")
      let g ← mpPlusGreedy (· ≠ '*')
      _ ← mpCh (· = ':')
      _ ← mpLit (chars "**")
      pure g
    let catMatch : Option (List Char) := (scanFirst pCat line).map (·.1)
    match catMatch with
    | some g =>
      let cat := hn (strOf (jsTrim g)) (some 100) (some [])
      { tops := st.tops ++ [cat], catIdx := some st.tops.length, studioLoc := st.studioLoc }
    | none =>
      -- studio: /^\d+\.\s+\*\*([^*]+)\*\*/
      let pStudio : MP (List Char) := do
        _ ← mpPlusGreedy Char.isDigit
        _ ← mpCh (· = '.'); _ ← mpPlusGreedy jsWs
        _ ← mpLit (chars "**")
        let g ← mpPlusGreedy (· ≠ '*')
        _ ← mpLit (chars "**")
        pure g
      match (pStudio line).head? with
      | some (g, _) =>
        let baseName := strOf (jsTrim g)
        let pOwner : MP (List Char) := do
          _ ← mpLit (chars "(owned by")
          let o ← mpPlusGreedy (· ≠ ')')
          _ ← mpCh (· = ')')
          pure o
        let studioName :=
          if listContains line (chars "(owned by") then
            match scanFirst pOwner line with
            | some (o, _) => baseName ++ " (" ++ strOf (jsTrim o) ++ ")"
            | none => baseName
          else baseName
        let studio := hn studioName (some 80) (some [])
        match st.catIdx with
        | some i =>
          let cnt := ((st.tops.get? i).map (fun t => t.kids.length)).getD 0
          { tops := modifyAt st.tops i (fun t => t.appendChild studio),
            catIdx := st.catIdx, studioLoc := some (i, some cnt) }
        | none =>
          { tops := st.tops ++ [studio], catIdx := st.catIdx,
            studioLoc := some (st.tops.length, none) }
      | none =>
        -- subsidiary: /^\s*\*\s+([^*]+)/
        let pSub : MP (List Char) := do
          _ ← mpStarGreedy jsWs; _ ← mpCh (· = '*'); _ ← mpPlusGreedy jsWs
          let g ← mpPlusGreedy (· ≠ '*')
          pure g
        match (pSub line).head? with
        | some (g, _) =>
          let sub := hn (strOf (jsTrim g)) (some 50) none
          match st.studioLoc with
          | some (i, some j) =>
            { st with tops := modifyAt st.tops i (fun t => t.modifyChild j (·.appendChild sub)) }
          | some (i, none) =>
            { st with tops := modifyAt st.tops i (·.appendChild sub) }
          | none =>
            match st.catIdx with
            | some i => { st with tops := modifyAt st.tops i (·.appendChild sub) }
            | none => { st with tops := st.tops ++ [sub] }
        | none => st

/-- `processStudioStructure` (source lines 2260–2339). -/
def processStudioStructure (text : String) : HNode :=
  let lines := splitOnChar '\n' (chars text)
  let st := lines.foldl studioStep {}
  hn "Hollywood Studios" none (some st.tops)

/-- State of the `processDramaticStructure` line loop. -/
structure DramSt where
  tops : List HNode := []
  actIdx : Option ℕ := none
  seqLoc : Option (ℕ × Option ℕ) := none

/-- First run of digits in a line (`line.match(/\d+/)[0]`). -/
def firstDigitRun (l : List Char) : List Char :=
  match scanFirst (mpPlusGreedy Char.isDigit) l with
  | some (d, _) => d
  | none => []

/-- Repetition `(\s+[A-Z][a-z]+)+` used by the title-case pattern of
`processDramaticStructure`. -/
def mpSomeGroups (isUpper isLower : Char → Bool) : MP Unit := fun l =>
  go l (l.length + 1)
where
  go : List Char → ℕ → List (Unit × List Char)
  | _, 0 => []
  | l, fuel + 1 =>
    let once : MP Unit := do
      _ ← mpPlusGreedy jsWs; _ ← mpCh isUpper; _ ← mpPlusGreedy isLower
      pure ()
    (once l).flatMap fun p =>
      (go p.2 fuel) ++ [((), p.2)]

/-- `processDramaticStructure` (source lines 2346–2459), processing the
line list with the one-line lookahead loop of the title-case branch (the
fuel argument only bounds the recursion; one line is consumed per step, so
`lines.length + 1` is always enough). -/
def dramaticLoop : ℕ → List (List Char) → DramSt → DramSt
  | 0, _, st => st
  | _ + 1, [], st => st
  | fuel + 1, rawLine :: rest, st =>
    let line := jsTrim rawLine
    if line.isEmpty then dramaticLoop fuel rest st
    else
      -- act: /^Act\s+\d+:\s+(.+)/i
      let pAct : MP (List Char) := do
        _ ← mpLitCI (chars "Act")
        _ ← mpPlusGreedy jsWs
        _ ← mpPlusGreedy Char.isDigit
        _ ← mpCh (· = ':'); _ ← mpPlusGreedy jsWs
        let g ← mpPlusGreedy (· ≠ '\n')
        pure g
      match (pAct line).head? with
      | some (g, _) =>
        let actName := "Act " ++ strOf (firstDigitRun line) ++ ": " ++ strOf (jsTrim g)
        let act := hn actName (some 100) (some [])
        dramaticLoop fuel rest
          { tops := st.tops ++ [act], actIdx := some st.tops.length, seqLoc := none }
      | none =>
        -- sequence test: /^Sequence\s+\d+:/i
        let pSeqTest : MP Unit := do
          _ ← mpLitCI (chars "Sequence")
          _ ← mpPlusGreedy jsWs
          _ ← mpPlusGreedy Char.isDigit
          _ ← mpCh (· = ':')
          pure ()
        if !((pSeqTest line).isEmpty) then
          -- name capture: /^Sequence\s+\d+:\s+([^(]+)/i
          let pSeqName : MP (List Char) := do
            _ ← mpLitCI (chars "Sequence")
            _ ← mpPlusGreedy jsWs
            _ ← mpPlusGreedy Char.isDigit
            _ ← mpCh (· = ':'); _ ← mpPlusGreedy jsWs
            let g ← mpPlusGreedy (· ≠ '(')
            pure g
          let base := "Sequence " ++ strOf (firstDigitRun line)
          let withName :=
            match (pSeqName line).head? with
            | some (g, _) => base ++ ": " ++ strOf (jsTrim g)
            | none => base
          let pScene : MP (List Char) := do
            _ ← mpLit (chars "(Scene")
            let g ← mpPlusGreedy (· ≠ ')')
            _ ← mpCh (· = ')')
            pure g
          let seqName :=
            if listContains line (chars "(Scene") then
              match scanFirst pScene line with
              | some (g, _) => withName ++ " (" ++ strOf (jsTrim g) ++ ")"
              | none => withName
            else withName
          let seqNode := hn seqName (some 70) (some [])
          match st.actIdx with
          | some i =>
            let cnt := ((st.tops.get? i).map (fun t => t.kids.length)).getD 0
            dramaticLoop fuel rest
              { tops := modifyAt st.tops i (·.appendChild seqNode),
                actIdx := st.actIdx, seqLoc := some (i, some cnt) }
          | none =>
            dramaticLoop fuel rest
              { tops := st.tops ++ [seqNode], actIdx := st.actIdx,
                seqLoc := some (st.tops.length, none) }
        else
          -- element: /^\+\s+(.+)/
          let pPlus : MP (List Char) := do
            _ ← mpCh (· = '+'); _ ← mpPlusGreedy jsWs
            let g ← mpPlusGreedy (· ≠ '\n')
            pure g
          match (pPlus line).head? with
          | some (g, _) =>
            let el := hn (strOf (jsTrim g)) (some 40) none
            let st2 :=
              match st.seqLoc with
              | some (i, some j) =>
                { st with tops := modifyAt st.tops i (fun t => t.modifyChild j (·.appendChild el)) }
              | some (i, none) =>
                { st with tops := modifyAt st.tops i (·.appendChild el) }
              | none =>
                match st.actIdx with
                | some i => { st with tops := modifyAt st.tops i (·.appendChild el) }
                | none => { st with tops := st.tops ++ [el] }
            dramaticLoop fuel rest st2
          | none =>
            -- title-case section: /^[A-Z][a-z]+(\s+[A-Z][a-z]+)+/
            let isUpper : Char → Bool := fun c => 'A' ≤ c && c ≤ 'Z'
            let isLower : Char → Bool := fun c => 'a' ≤ c && c ≤ 'z'
            let pTitleRep : MP Unit := do
              _ ← mpCh isUpper; _ ← mpPlusGreedy isLower
              _ ← mpSomeGroups isUpper isLower
              pure ()
            match (pTitleRep line).head? with
            | some _ =>
              let taken := rest.takeWhile fun ln =>
                match (jsTrim ln) with
                | c :: _ => isUpper c
                | [] => false
              let kids := taken.map fun ln => hn (strOf (jsTrim ln)) (some 30) none
              let sec := hn (strOf line) (some 60) (some kids)
              dramaticLoop fuel (rest.drop taken.length)
                { st with tops := st.tops ++ [sec] }
            | none => dramaticLoop fuel rest st

/-- `processDramaticStructure` (source lines 2346–2459). -/
def processDramaticStructure (text : String) : HNode :=
  let lines := splitOnChar '\n' (chars text)
  let st := dramaticLoop (lines.length + 1) lines {}
  hn "Dramatic Structure" none (some st.tops)

/-- State of the `extractEnhancedHierarchicalData` line machine (source
lines 2078–2240).  `active` encodes the `currentSections` / `currentSection`
aliases: `0` — no current section; `1` — `currentSection` is the last
top-level node; `2` — `currentSection` is the last child of the last
top-level node.  These aliases always point into the accumulated tree in the
source, because bullets reach the top level only before any section exists. -/
structure HierSt where
  tops : List HNode := []
  active : ℕ := 0
  prevLevel : ℤ := -1

/-- Modify the last element of a list in place. -/
def modifyLast (ts : List HNode) (f : HNode → HNode) : List HNode :=
  modifyAt ts (ts.length - 1) f

/-- Append an item to the node `currentSection` points at. -/
def HierSt.appendAtActive (st : HierSt) (item : HNode) : List HNode :=
  if st.active = 2 then
    modifyLast st.tops fun t => t.modifyChild (t.kids.length - 1) (·.appendChild item)
  else
    modifyLast st.tops (·.appendChild item)

/-- First index at which `pat` occurs in `hay`. -/
def firstIndexOfSub (hay pat : List Char) : Option ℕ :=
  go hay pat 0
where
  go : List Char → List Char → ℕ → Option ℕ
  | hay, pat, i =>
    if pat.isPrefixOf hay then some i
    else match hay with
      | [] => none
      | _ :: t => go t pat (i + 1)

/-- Parse one example of an `Examples: a, b (info), …` sub-list with
`/(.*?)\s*(?:\((.*?)\))?$/` (source lines 2182–2189). -/
def parseExample (ex : List Char) : HNode :=
  let pEx : MP (List Char × Option (List Char)) := do
    let g1 ← mpStarLazy (· ≠ '\n')
    _ ← mpStarGreedy jsWs
    let g2 ← mpOpt (do
      _ ← mpCh (· = '(')
      let i ← mpStarLazy (· ≠ '\n')
      _ ← mpCh (· = ')')
      pure i)
    _ ← mpEnd
    pure (g1, g2)
  match (pEx ex).head? with
  | some ((g1, g2), _) =>
    let info := g2.bind fun i => if i.isEmpty then none else some (strOf (jsTrim i))
    .node (strOf (jsTrim g1)) (some 30) none info
  | none => hn (strOf (jsTrim ex)) (some 30) none

/-- One line of the `extractEnhancedHierarchicalData` machine.  The error
case models the `TypeError` the source raises when a numbered item arrives
with `previousLevel ≥ 1` while `currentSections` is still empty
(`currentSections[0]` is `undefined`). -/
def hierStep (st : HierSt) (rawLine : List Char) : Except String HierSt :=
  let line := jsTrim rawLine
  if line.isEmpty then .ok st
  else
    let notStarColon : Char → Bool := fun c => c ≠ '*' && c ≠ ':'
    let secEnd : MP Unit := mpAltList
      [do _ ← mpLit (chars "**"); pure (),
       do _ ← mpCh (· = ':'); pure ()]
    -- section header: /^\*\*([^*:]+)(?:\*\*|:)/
    let pSec : MP (List Char) := do
      _ ← mpLit (chars "**")
      let g ← mpPlusGreedy notStarColon
      _ ← secEnd
      pure g
    match (pSec line).head? with
    | some (g, _) =>
      let s := hn (strOf (jsTrim g)) (some 100) (some [])
      .ok { tops := st.tops ++ [s], active := 1, prevLevel := 0 }
    | none =>
      -- numbered item: /^\*?\s*\d+\.\s*\*?\*([^*:]+)(?:\*\*|:)/
      let pNum : MP (List Char) := do
        _ ← mpOpt (mpCh (· = '*'))
        _ ← mpStarGreedy jsWs
        _ ← mpPlusGreedy Char.isDigit
        _ ← mpCh (· = '.')
        _ ← mpStarGreedy jsWs
        _ ← mpOpt (mpCh (· = '*'))
        _ ← mpCh (· = '*')
        let g ← mpPlusGreedy notStarColon
        _ ← secEnd
        pure g
      match (pNum line).head? with
      | some (g, _) =>
        let newItem := hn (strOf (jsTrim g)) (some 70) (some [])
        if st.prevLevel < 1 then
          if st.active ≠ 0 then
            .ok { tops := modifyLast st.tops (·.appendChild newItem), active := 2, prevLevel := 1 }
          else
            let parent := hn "Main Category" (some 100) (some [newItem])
            .ok { tops := st.tops ++ [parent], active := 2, prevLevel := 1 }
        else
          if st.active = 0 then
            .error "Cannot read properties of undefined (reading 'children')"
          else
            .ok { tops := modifyLast st.tops (·.appendChild newItem), active := 2, prevLevel := 1 }
      | none =>
        -- bullet: /^\s*[\*\-\+]\s+(.+)/
        let pBullet : MP (List Char) := do
          _ ← mpStarGreedy jsWs; _ ← mpCh isBullet3; _ ← mpPlusGreedy jsWs
          let g ← mpPlusGreedy (· ≠ '\n')
          pure g
        match (pBullet line).head? with
        | some (g, _) =>
          let itemText0 := jsTrim g
          let hasExamples := listContains itemText0 (chars "Examples:")
          let examples : List HNode :=
            if hasExamples then
              match firstIndexOfSub itemText0 (chars "Examples:") with
              | some idx =>
                let afterRaw := itemText0.drop (idx + (chars "Examples:").length)
                let after := afterRaw.dropWhile jsWs
                ((splitOnChar ',' after).map jsTrim).map parseExample
              | none => []
            else []
          let itemText :=
            if hasExamples then
              match firstIndexOfSub itemText0 (chars "Examples:") with
              | some idx => itemText0.take idx ++ chars "Examples:"
              | none => itemText0
            else itemText0
          let newItem := hn (strOf itemText) (some 50)
            (if examples.length > 0 then some examples else none)
          if st.active ≠ 0 then
            .ok { st with tops := st.appendAtActive newItem, prevLevel := 2 }
          else
            .ok { st with tops := st.tops ++ [newItem], prevLevel := 2 }
        | none =>
          -- detail line: /^\s*\+\s+(.+)/ (unreachable: the bullet pattern
          -- above also matches every `+` line)
          let pPlus : MP (List Char) := do
            _ ← mpStarGreedy jsWs; _ ← mpCh (· = '+'); _ ← mpPlusGreedy jsWs
            let g ← mpPlusGreedy (· ≠ '\n')
            pure g
          match (pPlus line).head? with
          | some (g, _) =>
            let newItem := hn (strOf (jsTrim g)) (some 30) none
            if st.active ≠ 0 then
              .ok { st with tops := st.appendAtActive newItem, prevLevel := 3 }
            else
              .ok { st with tops := st.tops ++ [newItem], prevLevel := 3 }
          | none => .ok st

/-- `extractEnhancedHierarchicalData` (source lines 2078–2252): the generic
line machine, overridden at the end by the studio and dramatic-structure
special cases. -/
def extractEnhancedHierarchicalData (text : String) : Except String HNode := do
  let lines := splitOnChar '\n' (chars text)
  let st ← lines.foldlM hierStep {}
  let lower := lowerStr (chars text)
  if listContains lower (chars "studios") && listContains lower (chars "subsidiaries") then
    pure (processStudioStructure text)
  else if listContains lower (chars "dramatic structure") ||
      listContains lower (chars "act 1") then
    pure (processDramaticStructure text)
  else
    let t0 := detectTitleFromText text
    let rootName := if t0 = "" then "Hierarchical Data" else t0
    pure (hn rootName none (some st.tops))

/-- `enhancedExtractHierarchicalData` (source lines 2486–2495). -/
def enhancedExtractHierarchicalData (text : String) : Except String CanonicalResult :=
  (extractEnhancedHierarchicalData text).map fun h =>
    { data := .tree h, title := h.name, source := "hierarchy", isHierarchical := true }

/-! ## Hierarchy utilities -/

mutual
/-- `calculateTotalValue` (source lines 1360–1367): `node.value || 0` summed
over every node of the tree. -/
def calculateTotalValue : HNode → ℚ
  | .node _ v none _ => vOr v 0
  | .node _ v (some cs) _ => vOr v 0 + totalValueList cs
def totalValueList : List HNode → ℚ
  | [] => 0
  | c :: cs => calculateTotalValue c + totalValueList cs
end

mutual
/-- `calculateMaxDepth` (source lines 1369–1373): depth of the deepest
leaf, counting the root as depth `0`. -/
def calculateMaxDepth : HNode → ℕ → ℕ
  | .node _ _ none _, d => d
  | .node _ _ (some []) _, d => d
  | .node _ _ (some (c :: cs)) _, d => maxDepthList (c :: cs) (d + 1)
def maxDepthList : List HNode → ℕ → ℕ
  | [], _ => 0
  | [c], d => calculateMaxDepth c d
  | c :: cs, d => max (calculateMaxDepth c d) (maxDepthList cs d)
end

mutual
/-- `countNodes` (source lines 1375–1382). -/
def countNodes : HNode → ℕ
  | .node _ _ none _ => 1
  | .node _ _ (some cs) _ => 1 + countNodesList cs
def countNodesList : List HNode → ℕ
  | [] => 0
  | c :: cs => countNodes c + countNodesList cs
end

mutual
/-- `ensureNodeValues` (source lines 1468–1483), as the pure tree
transformer corresponding to the source's in-place mutation: a leaf's value
becomes `value || (100 - depth*20) || 1`; children are processed at
`depth + 1`.  In the source the input tree itself is updated, so after a
call the caller's tree *is* this function's result. -/
def ensureNodeValues : HNode → ℕ → HNode
  | .node n v cs i, depth =>
    let leaf := match cs with | none => true | some l => l.isEmpty
    let dflt : ℚ := if ((100 : ℚ) - depth * 20) ≠ 0 then (100 : ℚ) - depth * 20 else 1
    let v2 := if leaf then some (vOr v dflt) else v
    .node n v2 (match cs with
      | none => none
      | some l => some (ensureNodeValuesList l (depth + 1))) i
def ensureNodeValuesList : List HNode → ℕ → List HNode
  | [], _ => []
  | c :: cs, depth => ensureNodeValues c depth :: ensureNodeValuesList cs depth
end

/-- A record produced by `flattenHierarchy`: `{name, value, level}`. -/
structure FlatRec where
  name : String
  value : ℚ
  level : ℕ
deriving DecidableEq, Repr

mutual
/-- `flattenHierarchy` (source lines 2497–2520): pre-order traversal
emitting one record per node with a non-empty name; non-root nodes get the
`"Ancestor > … > Name"` path, and `value || (100 - level*20)` as value. -/
def flattenHierarchy : HNode → ℕ → String → List FlatRec
  | .node n v cs _, level, parentPath =>
    let currentPath := if parentPath ≠ "" then parentPath ++ " > " ++ n else n
    let self : List FlatRec :=
      if n ≠ "" then
        [{ name := if level = 0 then n else currentPath,
           value := vOr v ((100 : ℚ) - level * 20),
           level := level }]
      else []
    self ++ (match cs with
      | some l => flattenHierarchyList l (level + 1) currentPath
      | none => [])
def flattenHierarchyList : List HNode → ℕ → String → List FlatRec
  | [], _, _ => []
  | c :: cs, level, path => flattenHierarchy c level path ++ flattenHierarchyList cs level path
end

/-! ## Shape projectors -/

/-- Record view of an element of a raw passthrough array, used when such an
array reaches a projector.  Rendering a non-string `name` through `String()`
and collapsing a non-numeric `value` to the `NaN` representation are
embedding simplifications for this branch; every verified claim that
inspects projector output feeds it records or trees. -/
def rawRecView (x : JVal) : CanonicalRecord :=
  { name := if jsTruthy (jGet x "name") then jsToString (jGet x "name") else "",
    value := match jGet x "value" with | .num q => some q | _ => none }

def recsOfCData : CData → Option (List CanonicalRecord)
  | .flat recs => some recs
  | .raw xs => some (xs.map rawRecView)
  | .tree _ => none

structure TreeMapMeta where
  totalValue : ℚ
  maxDepth : ℕ
  nodeCount : ℕ
deriving DecidableEq, Repr

structure TreeMapOut where
  data : HNode
  metadata : TreeMapMeta

/-- Sort comparator `(a, b) => b.value - a.value` under stable `sort`; a
comparison involving `NaN` is treated as a tie, as the ECMAScript spec
prescribes. -/
def descByValue (a b : CanonicalRecord) : Bool :=
  match a.value, b.value with
  | some x, some y => decide (x ≥ y)
  | _, _ => true

/-- `formatForTreeMap` (source lines 1287–1357).  In the hierarchical branch
the source runs `ensureNodeValues` on the canonical tree itself and returns
that same object, so the caller's tree is the returned `data`. -/
def formatForTreeMap (d : CData) : TreeMapOut :=
  match d with
  | .tree t =>
    match t.children with
    | some _ =>
      let t2 := ensureNodeValues t 0
      { data := t2,
        metadata := { totalValue := calculateTotalValue t2,
                      maxDepth := calculateMaxDepth t2 0,
                      nodeCount := countNodes t2 } }
    | none => formatForTreeMapFallback
  | .flat recs => formatForTreeMapArray recs
  | .raw xs => formatForTreeMapArray (xs.map rawRecView)
where
  formatForTreeMapArray (recs : List CanonicalRecord) : TreeMapOut :=
    let sorted := recs.insertionSort fun a b => descByValue a b = true
    { data := hn "Data" none (some (sorted.map fun item =>
        hn (if item.name ≠ "" then item.name else "Unnamed") (some (vOr item.value 1)) none)),
      metadata := { totalValue := (sorted.map fun item => vOr item.value 0).sum,
                    maxDepth := 1,
                    nodeCount := sorted.length } }
  formatForTreeMapFallback : TreeMapOut :=
    { data := hn "Sample Data" none (some
        [hn "Group A" none (some [hn "Item A1" (some 40) none, hn "Item A2" (some 30) none]),
         hn "Group B" none (some [hn "Item B1" (some 20) none, hn "Item B2" (some 10) none])]),
      metadata := { totalValue := 100, maxDepth := 2, nodeCount := 6 } }

/-! ### DAG projector -/

structure DagNode where
  id : String
  name : String
  value : ℚ
  level : ℕ
deriving DecidableEq, Repr

structure DagLink where
  id : String
  source : String
  target : String
  value : ℚ
deriving DecidableEq, Repr

structure DagOut where
  nodes : List DagNode
  links : List DagLink
deriving DecidableEq, Repr

/-- Join segments with `_` between them. -/
def joinUnderscore : List (List Char) → List Char
  | [] => []
  | [s] => s
  | s :: rest => s ++ '_' :: joinUnderscore rest

/-- Collapse whitespace runs to `_` (`.replace(/\s+/g, '_')` on a trimmed
string). -/
def collapseWsToUnderscore (l : List Char) : List Char :=
  joinUnderscore (splitRuns jsWs (l.length + 1) l)

/-- The DAG id slug: `name.replace(/[^\w\s]/gi, '').trim().toLowerCase()`
followed by `.replace(/\s+/g, '_')`. -/
def slugify (name : String) : String :=
  strOf (collapseWsToUnderscore (lowerStr (jsTrim ((chars name).filter
    fun c => jsWord c || jsWs c))))

structure DagSt where
  nodes : List DagNode := []
  links : List DagLink := []

/-- The guarded node insertion of `traverseHierarchy`
(`if (!nodeMap.has(id)) { nodes.push(...) }`). -/
def dagAddNode (st : DagSt) (name id : String) (v : Option ℚ) (level : ℕ) : DagSt :=
  if st.nodes.any (·.id = id) then st
  else { st with nodes := st.nodes ++
    [{ id := id, name := name,
       value := vOr v (max 5 (20 - 5 * (level : ℚ))), level := level }] }

/-- The guarded parent-link insertion of `traverseHierarchy`
(`if (parentId) { ... if (!links.some(l => l.id === linkId)) links.push(...) }`). -/
def dagAddLink (st : DagSt) (parentId : Option String) (id : String) : DagSt :=
  match parentId with
  | some p =>
    let linkId := p ++ "-" ++ id
    if st.links.any (·.id = linkId) then st
    else { st with links := st.links ++
      [{ id := linkId, source := p, target := id, value := 1 }] }
  | none => st

mutual
/-- `traverseHierarchy` inside `formatForDAG` (source lines 1492–1528). -/
def dagTraverse : DagSt → HNode → Option String → ℕ → DagSt
  | st, .node name v cs _, parentId, level =>
    if name = "" then st
    else
      let id := slugify name
      if id = "" then st
      else
        let st2 := dagAddLink (dagAddNode st name id v level) parentId id
        match cs with
        | some l => dagTraverseList st2 l id (level + 1)
        | none => st2
def dagTraverseList : DagSt → List HNode → String → ℕ → DagSt
  | st, [], _, _ => st
  | st, c :: cs, pid, lvl => dagTraverseList (dagTraverse st c (some pid) lvl) cs pid lvl
end

/-- The consecutive-pair chain built when the traversal produced nodes but
no links (`for (let i = 0; i < nodes.length - 1; i++) links.push(...)`). -/
def dagChain (ns : List DagNode) : List DagLink :=
  (List.range (ns.length - 1)).filterMap fun i =>
    match ns.get? i, ns.get? (i + 1) with
    | some a, some b =>
      some { id := a.id ++ "-" ++ b.id, source := a.id, target := b.id, value := (1 : ℚ) }
    | _, _ => none

/-- `formatForDAG` (source lines 1485–1587). -/
def formatForDAG (d : CData) : DagOut :=
  match d with
  | .tree t =>
    match t.children with
    | some _ =>
      let st := dagTraverse {} t none 0
      let links :=
        if !st.nodes.isEmpty && st.links.isEmpty then dagChain st.nodes
        else st.links
      { nodes := st.nodes, links := links }
    | none => dagFallback
  | .flat recs => dagFromArray recs
  | .raw xs => dagFromArray (xs.map rawRecView)
where
  dagFromArray (recs : List CanonicalRecord) : DagOut :=
    let nodes := recs.enum.map fun p =>
      ({ id := "node_" ++ natStr p.1,
         name := if p.2.name ≠ "" then p.2.name else "Item " ++ natStr (p.1 + 1),
         value := vOr p.2.value 10, level := 0 } : DagNode)
    let links := (List.range (recs.length - 1)).map fun i =>
      ({ id := "link_" ++ natStr i, source := "node_" ++ natStr i,
         target := "node_" ++ natStr (i + 1), value := 1 } : DagLink)
    { nodes := nodes, links := links }
  dagFallback : DagOut :=
    { nodes :=
        [{ id := "root", name := "Root", value := 20, level := 0 },
         { id := "a", name := "Node A", value := 15, level := 1 },
         { id := "b", name := "Node B", value := 15, level := 1 },
         { id := "c", name := "Node C", value := 10, level := 2 },
         { id := "d", name := "Node D", value := 10, level := 2 }],
      links :=
        [{ id := "root-a", source := "root", target := "a", value := 1 },
         { id := "root-b", source := "root", target := "b", value := 1 },
         { id := "a-c", source := "a", target := "c", value := 1 },
         { id := "b-d", source := "b", target := "d", value := 1 }] }

/-! ### Network-graph projector -/

structure NGNode where
  id : String
  name : String
  value : ℚ
  group : ℕ
deriving DecidableEq, Repr

structure NGLink where
  source : String
  target : String
  value : ℚ
deriving DecidableEq, Repr

structure NGOut where
  nodes : List NGNode
  links : List NGLink
deriving DecidableEq, Repr

/-- Network-graph id: `name.replace(/[^\w\s]/gi, '').trim()`. -/
def ngId (name : String) : String :=
  strOf (jsTrim ((chars name).filter fun c => jsWord c || jsWs c))

structure NGSt where
  nodes : List NGNode := []
  links : List NGLink := []

mutual
/-- `traverseHierarchy` inside `formatForNetworkGraph` (source lines
1596–1626): nodes are deduplicated by id, links are pushed uncondition-
ally. -/
def ngTraverse : NGSt → HNode → Option String → ℕ → NGSt
  | st, .node name v cs _, parentId, level =>
    if name = "" then st
    else
      let id := ngId name
      if id = "" then st
      else
        let st1 :=
          if st.nodes.any (·.id = id) then st
          else { st with nodes := st.nodes ++
            [{ id := id, name := name,
               value := vOr v (max 5 (20 - 5 * (level : ℚ))), group := level + 1 }] }
        let st2 :=
          match parentId with
          | some p => { st1 with links := st1.links ++ [{ source := p, target := id, value := 1 }] }
          | none => st1
        match cs with
        | some l => ngTraverseList st2 l id (level + 1)
        | none => st2
def ngTraverseList : NGSt → List HNode → String → ℕ → NGSt
  | st, [], _, _ => st
  | st, c :: cs, pid, lvl => ngTraverseList (ngTraverse st c (some pid) lvl) cs pid lvl
end

/-- `formatForNetworkGraph` (source lines 1590–1685).  Note the flat branch
synthesises a chain between consecutive items plus an extra edge from every
third item — it contains no similarity computation. -/
def formatForNetworkGraph (d : CData) : NGOut :=
  match d with
  | .tree t =>
    match t.children with
    | some _ =>
      let st := ngTraverse {} t none 0
      { nodes := st.nodes, links := st.links }
    | none => ngFallback
  | .flat recs => ngFromArray recs
  | .raw xs => ngFromArray (xs.map rawRecView)
where
  ngFromArray (recs : List CanonicalRecord) : NGOut :=
    let nodes := recs.enum.map fun p =>
      ({ id := if p.2.name ≠ "" then ngId p.2.name else "node_" ++ natStr p.1,
         name := if p.2.name ≠ "" then p.2.name else "Item " ++ natStr p.1,
         value := vOr p.2.value 1, group := p.1 / 3 + 1 } : NGNode)
    let n := nodes.length
    let idAt := fun (i : ℕ) => ((nodes.get? i).map (·.id)).getD ""
    let links := (List.range n).flatMap fun i =>
      (if i < n - 1 then
        [({ source := idAt i, target := idAt (i + 1), value := 1 } : NGLink)]
       else []) ++
      (if i % 3 = 0 && i + 2 < n then
        [({ source := idAt i, target := idAt (i + 2), value := 1/2 } : NGLink)]
       else [])
    { nodes := nodes, links := links }
  ngFallback : NGOut :=
    { nodes :=
        [{ id := "A", name := "Node A", value := 10, group := 1 },
         { id := "B", name := "Node B", value := 8, group := 1 },
         { id := "C", name := "Node C", value := 6, group := 2 },
         { id := "D", name := "Node D", value := 4, group := 2 },
         { id := "E", name := "Node E", value := 2, group := 3 }],
      links :=
        [{ source := "A", target := "B", value := 1 },
         { source := "A", target := "C", value := 1 },
         { source := "B", target := "D", value := 1 },
         { source := "C", target := "D", value := 1 },
         { source := "D", target := "E", value := 1 }] }

/-! ### The NetworkGraph renderer component's flat-array branch

The similarity-based edge synthesis lives in the NetworkGraph component
(`src/unnamed/part_000…` series, the `NetworkGraph` renderer), not in the
projector above: when the component receives a plain array it builds indexed
nodes, connects pairs whose value similarity exceeds `0.7`, and then
connects every remaining isolate to its nearest-value neighbour. -/

structure CompNode where
  id : ℕ
  name : String
  value : ℚ
deriving DecidableEq, Repr

structure CompLink where
  source : ℕ
  target : ℕ
  strength : ℚ
deriving DecidableEq, Repr

/-- Component nodes: `{id: i, name: item.name || 'Unnamed', value: item.value || 1}`. -/
def ngComponentNodes (items : List CanonicalRecord) : List CompNode :=
  items.enum.map fun p =>
    { id := p.1, name := if p.2.name ≠ "" then p.2.name else "Unnamed",
      value := vOr p.2.value 1 }

def nodeValueAt (nodes : List CompNode) (i : ℕ) : ℚ :=
  ((nodes.get? i).map (·.value)).getD 0

/-- `similarity = 1 - |vi - vj| / max(vi, vj)`. -/
def valueSimilarity (a b : ℚ) : ℚ := 1 - |a - b| / max a b

/-- Phase one of the component's link synthesis: an edge for every pair
`i < j` whose similarity exceeds `0.7`, in loop order. -/
def ngComponentSimLinks (nodes : List CompNode) : List CompLink :=
  (List.range nodes.length).flatMap fun i =>
    (List.range nodes.length).filterMap fun j =>
      if i < j then
        let sim := valueSimilarity (nodeValueAt nodes i) (nodeValueAt nodes j)
        if sim > 7/10 then some { source := i, target := j, strength := sim } else none
      else none

/-- One step of the closest-node search (`diff < minDiff` keeps the first
minimum). -/
def closestStep (nodes : List CompNode) (i : ℕ) (acc : Option (ℕ × ℚ)) (j : ℕ) :
    Option (ℕ × ℚ) :=
  if j = i then acc
  else
    let diff := |nodeValueAt nodes i - nodeValueAt nodes j|
    match acc with
    | none => some (j, diff)
    | some (jb, db) => if diff < db then some (j, diff) else some (jb, db)

/-- The nearest-value neighbour of node `i` (the component's `closestNode`
loop). -/
def closestIdx (nodes : List CompNode) (i : ℕ) : Option (ℕ × ℚ) :=
  (List.range nodes.length).foldl (closestStep nodes i) none

/-- One step of the isolate-connection loop. -/
def ensureStep (nodes : List CompNode) (links : List CompLink) (i : ℕ) : List CompLink :=
  if links.any (fun l => l.source = i || l.target = i) then links
  else
    match closestIdx nodes i with
    | some (j, _) => links ++ [{ source := i, target := j, strength := 1/2 }]
    | none => links

/-- Phase two: every node without an edge in the accumulated list is
connected to the node of nearest value (first minimum, strength `0.5`). -/
def ngComponentEnsure (nodes : List CompNode) (links0 : List CompLink) : List CompLink :=
  (List.range nodes.length).foldl (ensureStep nodes) links0

/-- The component's full flat-array link synthesis. -/
def ngComponentLinks (items : List CanonicalRecord) : List CompLink :=
  let nodes := ngComponentNodes items
  ngComponentEnsure nodes (ngComponentSimLinks nodes)

/-! ## Metadata inference -/

/-- Letters of either case (class `[a-z]` under the `i` flag). -/
def isLetter (c : Char) : Bool := ('a' ≤ c && c ≤ 'z') || ('A' ≤ c && c ≤ 'Z')

/-- Matcher for `([a-z]+(?:\s+[a-z]+)?)` under `/i`. -/
def mpWordPair : MP (List Char) := do
  let w1 ← mpPlusGreedy isLetter
  let w2 ← mpOpt (do
    let sp ← mpPlusGreedy jsWs
    let w ← mpPlusGreedy isLetter
    pure (sp ++ w))
  pure (w1 ++ w2.getD [])

/-- `extractContextBefore` (source lines 507–518): the word before the first
keyword occurrence, capitalised. -/
def extractContextBefore (text : String) (keywords : List String) : Option String :=
  keywords.firstM fun kw =>
    let p : MP (List Char) := do
      let g ← mpPlusGreedy jsWord
      _ ← mpPlusGreedy jsWs
      _ ← mpLitCI (chars kw)
      pure g
    (scanFirst p (chars text)).map fun m => strOf (capitalize m.1)

/-- `extractSemanticMetadata` (source lines 412–502). -/
def extractSemanticMetadata (text queryText : String) : Metadata :=
  let fullText := chars (text ++ " " ++ queryText)
  let combined := lowerStr fullText
  let has : String → Bool := fun k => listContains combined (chars k)
  let scoreWords : MP Unit := do
    _ ← mpAltList [mpLitCI (chars "score"), mpLitCI (chars "rating"), mpLitCI (chars "points")]
    pure ()
  let vp1 : MP (List Char) := do
    _ ← mpAltList [mpLitCI (chars "of"), mpLitCI (chars "for"), mpLitCI (chars "in"),
                   mpLitCI (chars "about")]
    _ ← mpPlusGreedy jsWs
    let g ← mpWordPair
    _ ← mpPlusGreedy jsWs
    _ ← scoreWords
    pure g
  let vp2 : MP (List Char) := do
    let g ← mpWordPair
    _ ← mpPlusGreedy jsWs
    _ ← scoreWords
    pure g
  let vp3 : MP (List Char) := do
    _ ← scoreWords
    _ ← mpPlusGreedy jsWs
    _ ← mpAltList [mpLitCI (chars "of"), mpLitCI (chars "for"), mpLitCI (chars "in")]
    _ ← mpPlusGreedy jsWs
    let g ← mpWordPair
    pure g
  let extractedValueLabel : Option String :=
    match scanFirst vp1 fullText with
    | some (g, _) => some (strOf g ++ " Score")
    | none =>
      match scanFirst vp2 fullText with
      | some (g, _) => some (strOf g ++ " Score")
      | none =>
        match scanFirst vp3 fullText with
        | some (g, _) => some (strOf g ++ " Score")
        | none => none
  let base : Metadata := {}
  let md1 : Metadata :=
    if has "percentage" || has "%" || has "percent" then
      { base with
        valueLabel := "Percentage", yAxisLabel := "Percentage (%)",
        unit := "%", valueType := "percentage" }
    else if has "currency" || has "dollar" || has "usd" || has "eur" || has "€" ||
        has "$" || has "£" || has "¥" then
      let unit :=
        if has "usd" || has "dollar" then "USD"
        else if has "eur" || has "€" then "EUR"
        else if has "£" then "GBP"
        else if has "¥" then "JPY"
        else ""
      { base with
        valueLabel := "Amount", yAxisLabel := "Amount",
        valueType := "currency", unit := unit }
    else if has "count" || has "number" || has "quantity" then
      { base with valueLabel := "Count", yAxisLabel := "Count", valueType := "count" }
    else if has "score" || has "rating" || has "points" then
      let label :=
        match extractedValueLabel with
        | some s => s
        | none =>
          match extractContextBefore (strOf combined) ["score", "rating", "points"] with
          | some ctx =>
            ctx ++ " " ++ (if listContains (chars ctx) (chars "score") then "" else "Score")
          | none => "Score"
      { base with valueLabel := label, yAxisLabel := label, valueType := "score" }
    else if has "revenue" || has "sales" || has "income" then
      { base with
        valueLabel := "Revenue", yAxisLabel := "Revenue",
        valueType := "currency", unit := "USD" }
    else if has "growth" || has "rate" then
      { base with
        valueLabel := "Growth Rate", yAxisLabel := "Growth Rate (%)",
        unit := "%", valueType := "percentage" }
    else if has "temperature" || has "temp" then
      { base with
        valueLabel := "Temperature", yAxisLabel := "Temperature (°C)",
        unit := "°C" }
    else if has "population" || has "people" then
      { base with
        valueLabel := "Population", yAxisLabel := "Population",
        valueType := "count" }
    else base
  let xAxis :=
    if has "time" || has "date" || has "month" || has "year" || has "quarter" ||
        has "week" then "Time"
    else if has "category" || has "type" || has "group" then "Category"
    else if has "name" || has "item" || has "title" then "Item"
    else if has "location" || has "place" || has "region" then "Location"
    else "Category"
  { md1 with xAxisLabel := xAxis }

/-! ## JSON (the host runtime's `JSON.parse` / `JSON.stringify`) -/

def hexVal (c : Char) : Option ℕ :=
  let n := c.toNat
  if 48 ≤ n ∧ n ≤ 57 then some (n - 48)
  else if 97 ≤ n ∧ n ≤ 102 then some (n - 87)
  else if 65 ≤ n ∧ n ≤ 70 then some (n - 55)
  else none

/-- Parse a JSON string body after the opening quote. -/
def jsonString : ℕ → List Char → Except String (List Char × List Char)
  | 0, _ => .error "Unexpected end of JSON input"
  | _, [] => .error "Unexpected end of JSON input"
  | fuel + 1, c :: rest =>
    if c = '"' then .ok ([], rest)
    else if c = '\\' then
      match rest with
      | [] => .error "Unexpected end of JSON input"
      | e :: rest2 =>
        let simple : Option Char :=
          if e = '"' then some '"' else if e = '\\' then some '\\'
          else if e = '/' then some '/' else if e = 'n' then some '\n'
          else if e = 't' then some '\t' else if e = 'r' then some '\r'
          else if e = 'b' then some '\x08' else if e = 'f' then some '\x0c'
          else none
        match simple with
        | some d => (jsonString fuel rest2).map fun p => (d :: p.1, p.2)
        | none =>
          if e = 'u' then
            match rest2 with
            | h1 :: h2 :: h3 :: h4 :: rest3 =>
              match hexVal h1, hexVal h2, hexVal h3, hexVal h4 with
              | some a, some b, some c2, some d2 =>
                let n := ((a * 16 + b) * 16 + c2) * 16 + d2
                (jsonString fuel rest3).map fun p =>
                  (Char.ofNat n :: p.1, p.2)
              | _, _, _, _ => .error "Bad Unicode escape in JSON"
            | _ => .error "Unexpected end of JSON input"
          else .error "Bad escaped character in JSON"
    else (jsonString fuel rest).map fun p => (c :: p.1, p.2)

mutual
/-- Recursive-descent JSON value parser (models `JSON.parse`). -/
def jsonValue : ℕ → List Char → Except String (JVal × List Char)
  | 0, _ => .error "Unexpected end of JSON input"
  | fuel + 1, l =>
    let l := l.dropWhile jsWs
    match l with
    | [] => .error "Unexpected end of JSON input"
    | c :: rest =>
      if c = 'n' then
        if (chars "ull").isPrefixOf rest then .ok (.null, rest.drop 3)
        else .error "Unexpected token in JSON"
      else if c = 't' then
        if (chars "rue").isPrefixOf rest then .ok (.bool true, rest.drop 3)
        else .error "Unexpected token in JSON"
      else if c = 'f' then
        if (chars "alse").isPrefixOf rest then .ok (.bool false, rest.drop 4)
        else .error "Unexpected token in JSON"
      else if c = '"' then
        (jsonString (rest.length + 1) rest).map fun p => (.str (strOf p.1), p.2)
      else if c = '-' || c.isDigit then
        let (sgn, l2) : ℚ × List Char := if c = '-' then (-1, rest) else (1, l)
        let ip := l2.takeWhile Char.isDigit
        if ip.isEmpty then .error "Unexpected token in JSON"
        else
          let l3 := l2.drop ip.length
          let (fp, l4) : List Char × List Char :=
            match l3 with
            | '.' :: r => (r.takeWhile Char.isDigit, r.drop (r.takeWhile Char.isDigit).length)
            | _ => ([], l3)
          let (ex, l5) : ℤ × List Char :=
            match l4 with
            | 'e' :: r | 'E' :: r =>
              let (es, r2) : ℤ × List Char :=
                match r with
                | '-' :: rr => (-1, rr)
                | '+' :: rr => (1, rr)
                | _ => (1, r)
              let ed := r2.takeWhile Char.isDigit
              (es * (digitsToNat ed : ℤ), r2.drop ed.length)
            | _ => (0, l4)
          .ok (.num (sgn * decimalToRat ip fp * (10 : ℚ) ^ ex), l5)
      else if c = '[' then
        let rest2 := rest.dropWhile jsWs
        match rest2 with
        | ']' :: r => .ok (.arr [], r)
        | _ => do
          let (xs, r) ← jsonElems fuel rest
          pure (.arr xs, r)
      else if c = '{' then
        let rest2 := rest.dropWhile jsWs
        match rest2 with
        | '}' :: r => .ok (.obj [], r)
        | _ => do
          let (fs, r) ← jsonFields fuel rest
          pure (.obj fs, r)
      else .error "Unexpected token in JSON"

/-- Comma-separated array elements up to `]`. -/
def jsonElems : ℕ → List Char → Except String (List JVal × List Char)
  | 0, _ => .error "Unexpected end of JSON input"
  | fuel + 1, l => do
    let (v, r) ← jsonValue fuel l
    let r2 := r.dropWhile jsWs
    match r2 with
    | ',' :: r3 => (jsonElems fuel r3).map fun p => (v :: p.1, p.2)
    | ']' :: r3 => pure ([v], r3)
    | _ => .error "Unexpected token in JSON"

/-- Comma-separated object members up to `}`. -/
def jsonFields : ℕ → List Char → Except String (List (String × JVal) × List Char)
  | 0, _ => .error "Unexpected end of JSON input"
  | fuel + 1, l => do
    let l2 := l.dropWhile jsWs
    match l2 with
    | '"' :: r => do
      let (k, r2) ← jsonString (r.length + 1) r
      let r3 := r2.dropWhile jsWs
      match r3 with
      | ':' :: r4 => do
        let (v, r5) ← jsonValue fuel r4
        let r6 := r5.dropWhile jsWs
        match r6 with
        | ',' :: r7 => (jsonFields fuel r7).map fun p => ((strOf k, v) :: p.1, p.2)
        | '}' :: r7 => pure ([(strOf k, v)], r7)
        | _ => .error "Unexpected token in JSON"
      | _ => .error "Unexpected token in JSON"
    | _ => .error "Unexpected token in JSON"
end

/-- `JSON.parse`. -/
def jsonParse (s : String) : Except String JVal := do
  let l := chars s
  let (v, r) ← jsonValue (l.length + 1) l
  if (r.dropWhile jsWs).isEmpty then pure v
  else .error "Unexpected non-whitespace character after JSON data"

/-- Escape a string for `JSON.stringify`. -/
def jsonEscape (l : List Char) : List Char :=
  l.flatMap fun c =>
    if c = '"' then ['\\', '"']
    else if c = '\\' then ['\\', '\\']
    else if c = '\n' then ['\\', 'n']
    else if c = '\t' then ['\\', 't']
    else if c = '\r' then ['\\', 'r']
    else [c]

mutual
/-- `JSON.stringify` (used only to build the text handed to the metadata
inferencer for array and object inputs). -/
def jsonStringify : JVal → String
  | .null => "null"
  | .bool b => if b then "true" else "false"
  | .num q => ratToStr q
  | .str s => "\"" ++ strOf (jsonEscape (chars s)) ++ "\""
  | .arr xs => "[" ++ String.intercalate "," (jsonStringifyList xs) ++ "]"
  | .obj fs => "\x7b" ++ String.intercalate "," (jsonStringifyFields fs) ++ "\x7d"
def jsonStringifyList : List JVal → List String
  | [] => []
  | x :: xs => jsonStringify x :: jsonStringifyList xs
def jsonStringifyFields : List (String × JVal) → List String
  | [] => []
  | (k, v) :: fs =>
    ("\"" ++ strOf (jsonEscape (chars k)) ++ "\":" ++ jsonStringify v) :: jsonStringifyFields fs
end

/-! ## Input processors and the orchestrator -/

/-- `String.prototype.replace` with a `/g` regex: the matcher's captured
value is the replacement text. -/
def replaceScan (m : MP (List Char)) : ℕ → List Char → List Char
  | 0, l => l
  | _ + 1, [] => []
  | fuel + 1, l@(c :: t) =>
    match (m l).head? with
    | some (r, rest) =>
      if rest.length = l.length then c :: replaceScan m fuel t
      else r ++ replaceScan m fuel rest
    | none => c :: replaceScan m fuel t

/-- `String.prototype.replace` with a `/gm` regex anchored at `^`: the
matcher is attempted only at line starts. -/
def replaceLineAnchored (m : MP (List Char)) : ℕ → List Char → Bool → List Char
  | 0, l, _ => l
  | _ + 1, [], _ => []
  | fuel + 1, l@(c :: t), atStart =>
    if atStart then
      match (m l).head? with
      | some (r, rest) =>
        if rest.length = l.length then c :: replaceLineAnchored m fuel t (c = '\n')
        else
          let consumed := l.take (l.length - rest.length)
          r ++ replaceLineAnchored m fuel rest (consumed.getLast? = some '\n')
      | none => c :: replaceLineAnchored m fuel t (c = '\n')
    else c :: replaceLineAnchored m fuel t (c = '\n')

/-- `processTextData` (source lines 2573–2587): the flat-text detector
cascade, probed in the fixed order hierarchical → currency → time →
percentage → bullets → general; the first matching detector's extractor is
the one invoked. -/
def processTextData (text : String) : Except String CanonicalResult :=
  if containsHierarchicalData text then enhancedExtractHierarchicalData text
  else if containsCurrencyData text then .ok (extractCurrencyData text)
  else if containsTimeData text then .ok (extractTimeData text)
  else if containsPercentageData text then .ok (extractPercentageData text)
  else if containsBulletPoints text then .ok (extractBulletPointData text)
  else .ok (extractGeneralTextData text)

/-- `processResponseData` (source lines 2551–2568): the same cascade over
`data.response`.  A non-string `response` raises a `TypeError` inside
`containsHierarchicalData` (`text.toLowerCase is not a function`). -/
def processResponseData (data : JVal) : Except String CanonicalResult :=
  match jGet data "response" with
  | .str s =>
    if containsHierarchicalData s then enhancedExtractHierarchicalData s
    else if containsCurrencyData s then .ok (extractCurrencyData s)
    else if containsTimeData s then .ok (extractTimeData s)
    else if containsPercentageData s then .ok (extractPercentageData s)
    else if containsBulletPoints s then .ok (extractBulletPointData s)
    else .ok (extractGeneralTextData s)
  | _ => .error "text.toLowerCase is not a function"

/-- `processMarkdownData` (source lines 2525–2546): strips markdown and
re-processes; its `catch` falls back to processing the raw markdown. -/
def processMarkdownData (markdown : String) : Except String CanonicalResult :=
  let inner : Except String CanonicalResult :=
    if containsHierarchicalData markdown then enhancedExtractHierarchicalData markdown
    else
      let l := chars markdown
      let pBold : MP (List Char) := do
        _ ← mpLit (chars "**")
        let g ← mpStarLazy (· ≠ '\n')
        _ ← mpLit (chars "**")
        pure g
      let pItalic : MP (List Char) := do
        _ ← mpCh (· = '*')
        let g ← mpStarLazy (· ≠ '\n')
        _ ← mpCh (· = '*')
        pure g
      let pHeading : MP (List Char) := do
        _ ← mpPlusGreedy (· = '#')
        _ ← mpPlusGreedy jsWs
        let g ← mpStarLazy (· ≠ '\n')
        _ ← mpAltList [do _ ← mpCh (· = '\n'); pure (), mpEnd]
        pure (g ++ ['\n'])
      let pBulletRm : MP (List Char) := do
        _ ← mpStarGreedy jsWs
        _ ← mpCh isBullet3
        _ ← mpPlusGreedy jsWs
        pure []
      let s1 := replaceScan pBold (l.length + 1) l
      let s2 := replaceScan pItalic (s1.length + 1) s1
      let s3 := replaceScan pHeading (s2.length + 1) s2
      let s4 := replaceLineAnchored pBulletRm (s3.length + 1) s3 true
      processTextData (strOf s4)
  match inner with
  | .ok r => .ok r
  | .error _ => processTextData markdown

/-- List map with error propagation (the behaviour of `Array.prototype.map`
when the callback can raise: the first exception aborts the loop). -/
def mapExcept {α β : Type} (f : α → Except String β) : List α → Except String (List β)
  | [] => .ok []
  | a :: t =>
    match f a with
    | .error e => .error e
    | .ok b =>
      match mapExcept f t with
      | .error e => .error e
      | .ok bs => .ok (b :: bs)

/-- The structured-array test of `processArrayData`:
`typeof array[0] === 'object' && 'name' in array[0] && 'value' in array[0]`,
where `'in' null` raises a `TypeError`. -/
def structuredArrayCheck (first : JVal) : Except String Bool :=
  if jsIsObjectType first then
    match jHasKey first "name" with
    | none => .error "Cannot use 'in' operator to search for 'name' in null"
    | some hn2 =>
      if hn2 then
        match jHasKey first "value" with
        | none => .error "Cannot use 'in' operator to search for 'value' in null"
        | some hv => .ok hv
      else .ok false
  else .ok false

/-- The key the conversion picks for the record's name
(`keys.find(k => ...name/label/category... || typeof item[k] === 'string') || keys[0]`). -/
def arrayNameKey (item : JVal) (keys : List String) : Option String :=
  match keys.find? (fun k =>
      listContains (lowerStr (chars k)) (chars "name") ||
      listContains (lowerStr (chars k)) (chars "label") ||
      listContains (lowerStr (chars k)) (chars "category") ||
      (match jGet item k with | .str _ => true | _ => false)) with
  | some k => some k
  | none => keys.head?

/-- The key the conversion picks for the record's value
(`keys.find(k => ...value/count/amount... || typeof item[k] === 'number')
|| keys.find(k => k !== nameKey) || keys[1] || keys[0]`). -/
def arrayValueKey (item : JVal) (keys : List String) : Option String :=
  match keys.find? (fun k =>
      listContains (lowerStr (chars k)) (chars "value") ||
      listContains (lowerStr (chars k)) (chars "count") ||
      listContains (lowerStr (chars k)) (chars "amount") ||
      (match jGet item k with | .num _ => true | _ => false)) with
  | some k => some k
  | none =>
    match keys.find? (fun k => some k ≠ arrayNameKey item keys) with
    | some k => some k
    | none =>
      match keys.get? 1 with
      | some k => some k
      | none => keys.head?

/-- The entry `item[valueKey]` the conversion coerces into the record's
value. -/
def arrayItemValueVal (item : JVal) : JVal :=
  match jKeys item with
  | none => .null
  | some keys => ((arrayValueKey item keys).map (jGet item)).getD .null

/-- `parseFloat(v) || 0` on a parse result.  A `NaN` collapses to `0`; a
±Infinity survives `|| 0` (infinities are truthy) and, being non-finite, is
recorded like `NaN` as the absent value — exact for the finiteness
questions asked of these records, though an infinity is truthy in
JavaScript while an absent value is not. -/
def coerceParsed : Option JsFloat → Option ℚ
  | some (.fin q) => some (if q ≠ 0 then q else 0)
  | some (.inf _) => none
  | none => some 0

/-- `typeof v === 'number' ? v : parseFloat(v) || 0`. -/
def coerceValue (w : JVal) : Option ℚ :=
  match w with
  | .num q => some q
  | w2 => coerceParsed (jsParseFloat (chars (jsToString w2)))

/-- The per-item conversion callback of `processArrayData`'s map:
`Object.keys(null)` raises; otherwise name and value keys are inferred
heuristically and the value is coerced to a number. -/
def arrayItemRec (p : ℕ × JVal) : Except String CanonicalRecord :=
  let index := p.1
  let item := p.2
  if jsIsObjectType item then
    match jKeys item with
    | none => .error "Cannot convert undefined or null to object"
    | some keys =>
      let nameVal := ((arrayNameKey item keys).map (jGet item)).getD .null
      let nm := jsToString (if jsTruthy nameVal then nameVal
        else .str ("Item " ++ natStr index))
      .ok { name := nm, value := coerceValue (arrayItemValueVal item) }
  else
    match item with
    | .num q => .ok { name := "Item " ++ natStr index, value := some q }
    | w => .ok { name := jsToString w, value := some 0 }

/-- `processArrayData` (source lines 2592–2643).  The first branch passes a
"structured" array through unchanged; the conversion branch coerces names
and values. -/
def processArrayData (array : List JVal) : Except String CanonicalResult :=
  match array with
  | [] => .ok (generateSampleData "Empty array provided")
  | first :: _ =>
    match structuredArrayCheck first with
    | .error e => .error e
    | .ok true =>
      .ok { data := .raw array, title := "Array Data", source := "structured array" }
    | .ok false =>
      match mapExcept arrayItemRec array.enum with
      | .error e => .error e
      | .ok processed =>
        .ok { data := .flat processed, title := "Array Data", source := "array" }

/-- Insert-or-overwrite into an ordered association list (JavaScript object
assignment semantics: a repeated key keeps its first position).  The value
is the record representation of the parsed number: `none` stands for a
non-finite (±Infinity) parse, which `!isNaN(parseFloat(value))` lets
through. -/
def upsert (l : List (String × Option ℚ)) (k : String) (v : Option ℚ) :
    List (String × Option ℚ) :=
  if l.any (·.1 = k) then l.map (fun p => if p.1 = k then (k, v) else p) else l ++ [(k, v)]

/-- `processObjectData` (source lines 2648–2682): numeric-valued entries
become records; otherwise the object is stringified (always
`"[object Object]"`) and processed as text. -/
def processObjectData (fields : List (String × JVal)) : Except String CanonicalResult :=
  let filtered := fields.foldl (fun acc p =>
    if p.1 ≠ "response" && !(p.1.startsWith "_") && p.1 ≠ "query" then
      match p.2 with
      | .num q => upsert acc p.1 (some q)
      | .str s =>
        match jsParseFloat (chars s) with
        | some (.fin q) => upsert acc p.1 (some q)
        | some (.inf _) => upsert acc p.1 none
        | none => acc
      | _ => acc
    else acc) []
  if !filtered.isEmpty then
    .ok { data := .flat (filtered.map fun p => { name := p.1, value := p.2 }),
          title := "Object Data", source := "object" }
  else
    -- `obj.toString` always exists, so the guard always takes this branch
    processTextData "[object Object]"

/-- `lastIndexOf` of a character. -/
def lastIndexOfChar (l : List Char) (c : Char) : Option ℕ :=
  (l.enum.filter (fun p => p.2 = c)).getLast?.map (·.1)

/-- `String.prototype.substring` (negative-free form; swaps its arguments
when `start > end`, as the JavaScript method does). -/
def jsSubstring (l : List Char) (a b : ℕ) : List Char :=
  let lo := min a b
  let hi := max a b
  (l.take hi).drop lo

/-- `processSavedChatData` (source lines 1979–2027): parses the saved-chat
envelope; its `catch` converts any failure into the sample fallback. -/
def processSavedChatData (chatString : String) : CanonicalResult :=
  let l := chars chatString
  let inner : Except String CanonicalResult := do
    let jsonStart := firstIndexOfSub l ['[']
    match jsonStart with
    | none => Except.error "Invalid chat format"
    | some js => do
      let jsonEnd := ((lastIndexOfChar l ']').map (· + 1)).getD 0
      let chatJson := jsSubstring l js jsonEnd
      let chatData ← jsonParse (strOf chatJson)
      match chatData with
      | .arr msgs =>
        let botMessage := msgs.find? fun m =>
          match jGet m "sender" with | .str s => s = "bot" | _ => false
        match botMessage with
        | none => pure (generateSampleData "No bot response found in chat")
        | some bot =>
          let text := jGet bot "text"
          if jsIsObjectType text then
            match text with
            | .null =>
              -- `botMessage.text.response` on `null`
              Except.error "Cannot read properties of null (reading 'response')"
            | _ =>
              let resp := jGet text "response"
              if jsTruthy resp then
                match resp with
                | .str s =>
                  if listContains (chars s) (chars "cannot provide") ||
                     listContains (chars s) (chars "I'm sorry") ||
                     listContains (chars s) (chars "I apologize") then
                    pure { data := .flat [], title := "Invalid Response", source := "invalid",
                           isInvalid := true,
                           message := some "Invalid response - charts cannot be generated" }
                  else processTextData s
                | _ => Except.error "responseText.includes is not a function"
              else
                match text with
                | .str s => processTextData s
                | _ => pure (generateSampleData "Could not extract usable data from chat")
          else
            match text with
            | .str s => processTextData s
            | _ => pure (generateSampleData "Could not extract usable data from chat")
      | _ => Except.error "chatData.find is not a function"
  match inner with
  | .ok r => r
  | .error e => generateSampleData ("Error processing chat data: " ++ e)

/-- `getColorScheme` (source lines 3223–3234). -/
def getColorScheme (source : String) : List String :=
  if source = "currency data" then
    ["#2E8B57", "#3CB371", "#66CDAA", "#8FBC8F", "#90EE90"]
  else if source = "percentage data" then
    ["#4682B4", "#5F9EA0", "#6495ED", "#7B68EE", "#87CEFA"]
  else if source = "time series data" then
    ["#D2691E", "#CD853F", "#F4A460", "#DEB887", "#FFE4C4"]
  else
    ["#8884d8", "#82ca9d", "#ffc658", "#ff8042", "#0088fe"]

/-- The `try` body of `processChartData` (source lines 527–612), with each
modelled JavaScript exception surfaced as an `Except.error`. -/
def processChartDataCore (data query : JVal) : Except String CanonicalResult :=
  let queryText : String :=
    match query with
    | .str s => s
    | q =>
      if jsTruthy q && jsIsObjectType q && jsTruthy (jGet q "response") then
        jsToString (jGet q "response")
      else ""
  let attach : CanonicalResult → String → CanonicalResult := fun r t =>
    { r with metadata := some (extractSemanticMetadata t queryText) }
  match data with
  | .str s =>
    if (chars "Saving chat:").isPrefixOf (jsTrim (chars s)) then
      let r := processSavedChatData s
      .ok (attach r r.title)
    else if listContains (chars s) (chars "**") || listContains (chars s) (chars "#") ||
        listContains (chars s) (chars "- ") then
      if containsHierarchicalData s then
        (enhancedExtractHierarchicalData s).map (attach · s)
      else
        (processMarkdownData s).map (attach · s)
    else
      -- strings fail the `data.response` and `query.response` object tests,
      -- except that a response in the query is consulted first
      if jsTruthy query && jsIsObjectType query && jsTruthy (jGet query "response") then
        match jGet query "response" with
        | .str qs =>
          if containsHierarchicalData qs then
            (enhancedExtractHierarchicalData qs).map (attach · qs)
          else (processResponseData query).map (attach · qs)
        | _ => (processResponseData query).map (attach · "")
      else if containsHierarchicalData s then
        (enhancedExtractHierarchicalData s).map (attach · s)
      else (processTextData s).map (attach · s)
  | .arr xs =>
    -- arrays are objects, so the `data.response` branch is probed first;
    -- an array's `response` property is always absent
    if jsTruthy (jGet data "response") then
      match jGet data "response" with
      | .str rs =>
        if containsHierarchicalData rs then
          (enhancedExtractHierarchicalData rs).map (attach · rs)
        else (processResponseData data).map (attach · rs)
      | _ => (processResponseData data).map (attach · "")
    else if jsTruthy query && jsIsObjectType query && jsTruthy (jGet query "response") then
      match jGet query "response" with
      | .str qs =>
        if containsHierarchicalData qs then
          (enhancedExtractHierarchicalData qs).map (attach · qs)
        else (processResponseData query).map (attach · qs)
      | _ => (processResponseData query).map (attach · "")
    else
      (processArrayData xs).map (attach · (jsonStringify data))
  | .obj fields =>
    if jsTruthy (jGet data "response") then
      match jGet data "response" with
      | .str rs =>
        if containsHierarchicalData rs then
          (enhancedExtractHierarchicalData rs).map (attach · rs)
        else (processResponseData data).map (attach · rs)
      | _ => (processResponseData data).map (attach · "")
    else if jsTruthy query && jsIsObjectType query && jsTruthy (jGet query "response") then
      match jGet query "response" with
      | .str qs =>
        if containsHierarchicalData qs then
          (enhancedExtractHierarchicalData qs).map (attach · qs)
        else (processResponseData query).map (attach · qs)
      | _ => (processResponseData query).map (attach · "")
    else
      (processObjectData fields).map (attach · (jsonStringify data))
  | _ =>
    -- null, booleans and numbers fall through every branch
    if jsTruthy query && jsIsObjectType query && jsTruthy (jGet query "response") then
      match jGet query "response" with
      | .str qs =>
        if containsHierarchicalData qs then
          (enhancedExtractHierarchicalData qs).map (attach · qs)
        else (processResponseData query).map (attach · qs)
      | _ => (processResponseData query).map (attach · "")
    else
      .ok (attach (generateSampleData "Could not extract usable data") "")

/-- `processChartData` (source lines 527–612): the `try`/`catch` boundary.
Any modelled exception is converted into the sample fallback with the
exception message embedded, so the function is total and never raises. -/
def processChartData (data query : JVal) : CanonicalResult :=
  match processChartDataCore data query with
  | .ok r => r
  | .error e =>
    let r := generateSampleData ("Error processing data: " ++ e)
    { r with metadata := some (extractSemanticMetadata ""
        (match query with | .str s => s | _ => "")) }

/-! ## Predicates used to state the verified claims -/

/-- Child access along a path of child indices. -/
def getAtPath : HNode → List ℕ → Option HNode
  | t, [] => some t
  | t, i :: p =>
    match t.kids.get? i with
    | some c => getAtPath c p
    | none => none

mutual
/-- Every leaf carries some numeric value. -/
def allLeavesValued : HNode → Bool
  | .node _ v none _ => v.isSome
  | .node _ v (some []) _ => v.isSome
  | .node _ _ (some (c :: cs)) _ => allLeavesValuedList (c :: cs)
def allLeavesValuedList : List HNode → Bool
  | [] => true
  | c :: cs => allLeavesValued c && allLeavesValuedList cs
end

mutual
/-- Every leaf carries a truthy (non-zero, non-`NaN`) value, so that no
`value || …` defaulting fires for it. -/
def allLeavesTruthy : HNode → Bool
  | .node _ v none _ => qTruthy v
  | .node _ v (some []) _ => qTruthy v
  | .node _ _ (some (c :: cs)) _ => allLeavesTruthyList (c :: cs)
def allLeavesTruthyList : List HNode → Bool
  | [] => true
  | c :: cs => allLeavesTruthy c && allLeavesTruthyList cs
end

mutual
/-- No internal (non-leaf) node carries a value. -/
def internalsValueFree : HNode → Bool
  | .node _ _ none _ => true
  | .node _ _ (some []) _ => true
  | .node _ v (some (c :: cs)) _ => v.isNone && internalsValueFreeList (c :: cs)
def internalsValueFreeList : List HNode → Bool
  | [] => true
  | c :: cs => internalsValueFree c && internalsValueFreeList cs
end

mutual
/-- Every node's name is non-empty. -/
def allNamesNonempty : HNode → Bool
  | .node n _ none _ => n ≠ ""
  | .node n _ (some cs) _ => n ≠ "" && allNamesNonemptyList cs
def allNamesNonemptyList : List HNode → Bool
  | [] => true
  | c :: cs => allNamesNonempty c && allNamesNonemptyList cs
end

mutual
/-- Every leaf lies exactly `k` levels below this node. -/
def uniformLeafDepth : HNode → ℕ → Bool
  | .node _ _ none _, k => k = 0
  | .node _ _ (some []) _, k => k = 0
  | .node _ _ (some (c :: cs)) _, k =>
    match k with
    | 0 => false
    | k2 + 1 => uniformLeafDepthList (c :: cs) k2
def uniformLeafDepthList : List HNode → ℕ → Bool
  | [], _ => true
  | c :: cs, k => uniformLeafDepth c k && uniformLeafDepthList cs k
end

/-- Sum of the `value`s of the flat records at a given level. -/
def sumAtLevel (recs : List FlatRec) (lvl : ℕ) : ℚ :=
  ((recs.filter fun r => r.level = lvl).map (·.value)).sum

/-- Well-formedness of a `{nodes, links}` DAG shape: node ids pairwise
distinct, link ids pairwise distinct, every link endpoint the id of some
node. -/
def dagWellFormed (o : DagOut) : Prop :=
  (o.nodes.map (·.id)).Nodup ∧ (o.links.map (·.id)).Nodup ∧
  ∀ l ∈ o.links,
    (∃ nd ∈ o.nodes, nd.id = l.source) ∧ (∃ nd ∈ o.nodes, nd.id = l.target)

def scenarioBInput : JVal :=
  .obj [("response", .str "Market share: 45%, Market share: Widgets (30%)")]

def scenarioCInput : String := "**Act 1: Setup**\n1. **Introduction**\n* Inciting incident"

/-- The deep chain used to refute the `max(100 - d*20, 1)` claim. -/
def chain6 : HNode :=
  hn "n0" none (some [hn "n1" none (some [hn "n2" none (some [hn "n3" none
    (some [hn "n4" none (some [hn "n5" none (some [hn "L" none none])])])])])])

def aliasTree : HNode := hn "R" none (some [hn "L" none none])

def c9ScenarioItems : List CanonicalRecord :=
  [{ name := "A", value := some 10 }, { name := "B", value := some 10 }]

def c7Counter : HNode :=
  hn "R" none (some [hn "A" (some 5) none, hn "B" none (some [hn "C" (some 7) none])])

def c7Uniform : HNode :=
  hn "Root" none (some [hn "A" (some 5) none, hn "B" (some 7) none])

/-- The invariant maintained by `traverseHierarchy`: node ids pairwise
distinct, link ids pairwise distinct, link endpoints ids of present nodes,
and every node id free of the separator `-`. -/
def DagInv (st : DagSt) : Prop :=
  (st.nodes.map (·.id)).Nodup ∧
  (st.links.map (·.id)).Nodup ∧
  (∀ l ∈ st.links,
    (∃ nd ∈ st.nodes, nd.id = l.source) ∧ (∃ nd ∈ st.nodes, nd.id = l.target)) ∧
  (∀ nd ∈ st.nodes, ∀ c ∈ chars nd.id, ¬ c = '-')

/-! ## Supporting lemmas -/

theorem HNode.inductionOn (P : HNode → Prop)
    (h : ∀ (name : String) (value : Option ℚ) (cs : Option (List HNode))
      (info : Option String), (∀ c ∈ cs.getD [], P c) → P (.node name value cs info)) :
    ∀ t, P t
  | .node n v cs i => h n v cs i fun c hc => HNode.inductionOn P h c
termination_by t => sizeOf t
decreasing_by
  cases cs with
  | none => simp at hc
  | some l =>
    have h2 := List.sizeOf_lt_of_mem hc
    simp only [Option.getD_some] at h2 ⊢
    simp only [HNode.node.sizeOf_spec, Option.some.sizeOf_spec]
    omega

/-! ## C4 — the Scenario B routing -/

/-- C4.  The claim says this input routes to the percentage extractor and
yields two `isPercentage` records titled "Market Share".  The code instead
routes it to the *time* extractor, because `containsTimeData`'s
month-abbreviation alternation `/Jan|Feb|Mar|…/i` carries no word boundary
and matches the "Mar" inside "Market"; the result is a single record
`{name: "Mar", value: 45, order: 3}` with title "Monthly Data" and source
"time series data".  This theorem evaluates the code at the failing
input. -/
theorem C4_failing_input_routes_to_time_extractor :
    (processChartData scenarioBInput (.str "")).source = "time series data" ∧
    (processChartData scenarioBInput (.str "")).title = "Monthly Data" ∧
    (processChartData scenarioBInput (.str "")).data =
      .flat [{ name := "Mar", value := some 45, order := some 3 }] ∧
    containsTimeData "Market share: 45%, Market share: Widgets (30%)" = true ∧
    containsPercentageData "Market share: 45%, Market share: Widgets (30%)" = true :=
  ⟨rfl, rfl, rfl, rfl, rfl⟩

/-! ## C2 — totality and the empty-string input -/

/-- C2, counterexample.  For the empty-string input the result carries *no*
`message` field: `generateSampleData` embeds the human-readable text as the
fifth record's name and sets no `message` property, so the claim's
"populated message field" is false (while `source = "sample"` and the
5-item sample record set do hold). -/
theorem C2_counterexample_no_message_field :
    (processChartData (.str "") (.str "")).message = none ∧
    (processChartData (.str "") (.str "")).source = "sample" ∧
    (processChartData (.str "") (.str "")).data =
      .flat (sampleRecords "No data patterns found in text") :=
  ⟨rfl, rfl, rfl⟩

/-- C2, as amended.  `processChartData` never raises: every modelled
internal exception is caught at its boundary and converted into the sample
fallback (`source = "sample"`) with the message embedded; and the
empty-string input yields exactly the sample result whose fifth record's
name is "No data patterns found in text" — with no `message` field set. -/
theorem C2_total_and_empty_input_sample :
    (∀ q : String,
      processChartData (.str "") (.str q) =
        { generateSampleData "No data patterns found in text" with
          metadata := some (extractSemanticMetadata "" q) }) ∧
    (∀ (d q : JVal) (e : String), processChartDataCore d q = .error e →
      processChartData d q =
        { generateSampleData ("Error processing data: " ++ e) with
          metadata := some (extractSemanticMetadata ""
            (match q with | .str s => s | _ => "")) }) := by
  constructor
  · intro q
    have hq : (jsTruthy (JVal.str q) && jsIsObjectType (JVal.str q) &&
        jsTruthy (jGet (JVal.str q) "response")) = false := by
      simp [jsIsObjectType]
    show (match processChartDataCore (JVal.str "") (JVal.str q) with
      | .ok r => r
      | .error e => _) = _
    rw [show processChartDataCore (JVal.str "") (JVal.str q) =
      .ok { generateSampleData "No data patterns found in text" with
            metadata := some (extractSemanticMetadata "" q) } from by
      show (if (jsTruthy (JVal.str q) && jsIsObjectType (JVal.str q) &&
          jsTruthy (jGet (JVal.str q) "response")) = true then _ else _) = _
      rw [hq]
      rfl]
  · intro d q e h
    show (match processChartDataCore d q with
      | .ok r => r
      | .error e2 => _) = _
    rw [h]

/-- C2, witness: the amended theorem applied at the empty string and at an
input whose non-string `response` raises inside the detector cascade. -/
theorem C2_witness :
    processChartData (.str "") (.str "") =
      { generateSampleData "No data patterns found in text" with
        metadata := some (extractSemanticMetadata "" "") } ∧
    processChartData (.obj [("response", .num 5)]) .null =
      { generateSampleData
          "Error processing data: text.toLowerCase is not a function" with
        metadata := some (extractSemanticMetadata "" "") } :=
  ⟨C2_total_and_empty_input_sample.1 "",
   C2_total_and_empty_input_sample.2 (.obj [("response", .num 5)]) .null
     "text.toLowerCase is not a function" rfl⟩

/-! ## C5 — the dramatic-structure scenario -/

/-- C5, counterexample.  On Scenario C's input the hierarchical extractor
does route to the dramatic-structure special case (the lower-cased text
contains "act 1"), but that special case's patterns are anchored at the
line start without bold markers (`/^Act\s+\d+:…/`), so none of the three
lines matches: the produced tree is the bare root `{name: "Dramatic
Structure", children: []}` — a one-node tree of depth 0, not a 3-level tree
rooted at an "Act 1" node. -/
theorem C5_counterexample_empty_dramatic_tree :
    (processChartData (.str scenarioCInput) (.str "")).data =
      .tree (hn "Dramatic Structure" none (some [])) ∧
    calculateMaxDepth (hn "Dramatic Structure" none (some [])) 0 = 0 ∧
    (hn "Dramatic Structure" none (some [])).kids = [] ∧
    (hn "Dramatic Structure" none (some [])).name = "Dramatic Structure" :=
  ⟨rfl, rfl, rfl, rfl⟩

/-- C5, as amended.  The input routes to the hierarchical extractor and its
dramatic-structure special case, which returns the childless "Dramatic
Structure" root: the result is a hierarchy whose tree is exactly that
single node (the claimed 3-level "Act 1" tree never forms, because the
special case's anchored patterns do not match the bold-marked lines). -/
theorem C5_routes_to_dramatic_special_case :
    (processChartData (.str scenarioCInput) (.str "")).source = "hierarchy" ∧
    (processChartData (.str scenarioCInput) (.str "")).isHierarchical = true ∧
    (processChartData (.str scenarioCInput) (.str "")).title = "Dramatic Structure" ∧
    (processChartData (.str scenarioCInput) (.str "")).data =
      .tree (processDramaticStructure scenarioCInput) ∧
    processDramaticStructure scenarioCInput = hn "Dramatic Structure" none (some []) :=
  ⟨rfl, rfl, rfl, rfl, rfl⟩

/-! ## C3 — record values after `process` on arrays -/

/-- C1.  For any text that reaches the flat-text cascade (i.e. is not
claimed by the hierarchical detector probed first), the detectors are
consulted in the fixed order currency > time > percentage > bullets >
general, and the first match's extractor alone produces the result; in
particular a text matching both the currency and the percentage detector is
handled by the currency extractor. -/
theorem C1_detector_cascade_priority :
    ∀ t : String, containsHierarchicalData t = false →
    (containsCurrencyData t = true →
      processTextData t = .ok (extractCurrencyData t)) ∧
    (containsCurrencyData t = false → containsTimeData t = true →
      processTextData t = .ok (extractTimeData t)) ∧
    (containsCurrencyData t = false → containsTimeData t = false →
      containsPercentageData t = true →
      processTextData t = .ok (extractPercentageData t)) ∧
    (containsCurrencyData t = false → containsTimeData t = false →
      containsPercentageData t = false → containsBulletPoints t = true →
      processTextData t = .ok (extractBulletPointData t)) ∧
    (containsCurrencyData t = false → containsTimeData t = false →
      containsPercentageData t = false → containsBulletPoints t = false →
      processTextData t = .ok (extractGeneralTextData t)) := by
  intro t hh
  unfold processTextData
  rw [hh]
  simp only [Bool.false_eq_true, if_false]
  refine ⟨fun h1 => by rw [h1]; simp,
          fun h1 h2 => by rw [h1, h2]; simp,
          fun h1 h2 h3 => by rw [h1, h2, h3]; simp,
          fun h1 h2 h3 h4 => by rw [h1, h2, h3, h4]; simp,
          fun h1 h2 h3 h4 => by rw [h1, h2, h3, h4]; simp⟩

/-- C1, witness: a text matching both the currency detector (`$45`) and the
percentage detector (`30%`) but not the hierarchical one is routed to the
currency extractor. -/
theorem C1_witness :
    containsHierarchicalData "Revenue: $45, growth: 30%" = false ∧
    containsCurrencyData "Revenue: $45, growth: 30%" = true ∧
    containsPercentageData "Revenue: $45, growth: 30%" = true ∧
    processTextData "Revenue: $45, growth: 30%" =
      .ok (extractCurrencyData "Revenue: $45, growth: 30%") :=
  ⟨rfl, rfl, rfl, (C1_detector_cascade_priority "Revenue: $45, growth: 30%" rfl).1 rfl⟩

/-! ## C6 — `ensureNodeValues` -/

theorem ensureNodeValuesList_eq_map (l : List HNode) (d : ℕ) :
    ensureNodeValuesList l d = l.map (ensureNodeValues · d) := by
  induction l with
  | nil => rfl
  | cons c cs ih => simp [ensureNodeValuesList, ih]

theorem allLeavesValuedList_of_forall (l : List HNode)
    (h : ∀ c ∈ l, allLeavesValued c = true) : allLeavesValuedList l = true := by
  induction l with
  | nil => rfl
  | cons c cs ih =>
    simp only [allLeavesValuedList, Bool.and_eq_true]
    exact ⟨h c (by simp), ih fun c2 hc2 => h c2 (by simp [hc2])⟩

theorem ensure_allLeavesValued : ∀ (t : HNode) (d : ℕ),
    allLeavesValued (ensureNodeValues t d) = true := by
  refine HNode.inductionOn _ ?_
  intro nm v cs i hih d
  cases cs with
  | none => rfl
  | some l =>
    cases l with
    | nil => rfl
    | cons c cs2 =>
      show allLeavesValued (.node nm v
        (some (ensureNodeValuesList (c :: cs2) (d + 1))) i) = true
      rw [ensureNodeValuesList_eq_map]
      simp only [List.map_cons]
      show allLeavesValuedList
        (ensureNodeValues c (d + 1) :: cs2.map (ensureNodeValues · (d + 1))) = true
      refine allLeavesValuedList_of_forall _ ?_
      intro c2 hc2
      rcases List.mem_cons.mp hc2 with rfl | h2
      · exact hih c (by simp) (d + 1)
      · rcases List.mem_map.mp h2 with ⟨c0, hc0, rfl⟩
        exact hih c0 (by simp [hc0]) (d + 1)

theorem ensure_leaf_default :
    ∀ (path : List ℕ) (t : HNode) (d : ℕ) (n : HNode),
    getAtPath t path = some n → n.isLeaf = true → n.value = none →
    getAtPath (ensureNodeValues t d) path = some (.node n.name
      (some (if ((100 : ℚ) - (d + path.length : ℕ) * 20) ≠ 0
        then (100 : ℚ) - (d + path.length : ℕ) * 20 else 1)) n.children n.info) := by
  intro path
  induction path with
  | nil =>
    intro t d n hget hleaf hval
    simp only [getAtPath, Option.some.injEq] at hget
    subst hget
    cases t with
    | node nm v cs i =>
      simp only [HNode.value] at hval
      subst hval
      simp only [HNode.isLeaf, HNode.kids] at hleaf
      cases cs with
      | none =>
        simp only [HNode.name, HNode.children, HNode.info, List.length_nil, Nat.add_zero]
        rfl
      | some l =>
        cases l with
        | nil =>
          simp only [HNode.name, HNode.children, HNode.info, List.length_nil, Nat.add_zero]
          rfl
        | cons c cs2 => simp at hleaf
  | cons i p ih =>
    intro t d n hget hleaf hval
    simp only [getAtPath] at hget ⊢
    cases hk : t.kids.get? i with
    | none => rw [hk] at hget; cases hget
    | some c =>
      rw [hk] at hget
      have hkids : (ensureNodeValues t d).kids = t.kids.map (ensureNodeValues · (d + 1)) := by
        cases t with
        | node nm v cs i2 =>
          cases cs with
          | none => rfl
          | some l =>
            show (HNode.node nm _ (some (ensureNodeValuesList l (d + 1))) i2).kids = _
            simp [HNode.kids, ensureNodeValuesList_eq_map]
      rw [hkids, List.get?_map, hk]
      simp only [Option.map_some']
      have harith : d + (i :: p).length = (d + 1) + p.length := by
        simp [List.length_cons]; omega
      rw [show ((d + (i :: p).length : ℕ) : ℚ) = ((d + 1 + p.length : ℕ) : ℚ) by rw [harith]]
      exact ih c (d + 1) n hget hleaf hval

/-- C6, counterexample.  At depth 6 a value-less leaf receives
`100 - 6*20 = -20` (the `|| 1` only rescues the exact-zero case at depth
5), while the claim's formula `max(100 - 6*20, 1)` demands `1`. -/
theorem C6_counterexample_depth6_negative :
    getAtPath (ensureNodeValues chain6 0) [0, 0, 0, 0, 0, 0] =
      some (hn "L" (some (-20)) none) ∧
    max ((100 : ℚ) - 6 * 20) 1 = 1 ∧ ((-20 : ℚ) ≠ 1) := by
  refine ⟨?_, by norm_num, by norm_num⟩
  norm_num [ensureNodeValues, ensureNodeValuesList, chain6, hn, getAtPath, HNode.kids, vOr]

/-- C6, as amended.  `ensureNodeValues` does guarantee every leaf a numeric
value; a leaf at depth `d` whose value is absent receives `100 - d*20` when
that is non-zero — which is negative for `d ≥ 6` — and `1` exactly when
`d = 5` (where `100 - d*20 = 0`).  This coincides with `max(100 - d*20, 1)`
only for `d ≤ 5`. -/
theorem C6_leaf_defaults :
    (∀ (t : HNode) (d : ℕ), allLeavesValued (ensureNodeValues t d) = true) ∧
    (∀ (path : List ℕ) (t : HNode) (d : ℕ) (n : HNode),
      getAtPath t path = some n → n.isLeaf = true → n.value = none →
      getAtPath (ensureNodeValues t d) path = some (.node n.name
        (some (if ((100 : ℚ) - (d + path.length : ℕ) * 20) ≠ 0
          then (100 : ℚ) - (d + path.length : ℕ) * 20 else 1)) n.children n.info)) :=
  ⟨ensure_allLeavesValued, ensure_leaf_default⟩

/-- C6, witness: a depth-1 value-less leaf receives `100 - 20 = 80`, and the
processed tree has all leaves valued. -/
theorem C6_witness :
    getAtPath (ensureNodeValues (hn "R" none (some [hn "L" none none])) 0) [0] =
      some (.node "L" (some (if ((100 : ℚ) - (0 + 1 : ℕ) * 20) ≠ 0
        then (100 : ℚ) - (0 + 1 : ℕ) * 20 else 1)) none none) ∧
    allLeavesValued (ensureNodeValues (hn "R" none (some [hn "L" none none])) 0) = true :=
  ⟨C6_leaf_defaults.2 [0] (hn "R" none (some [hn "L" none none])) 0
      (hn "L" none none) rfl rfl rfl,
   C6_leaf_defaults.1 (hn "R" none (some [hn "L" none none])) 0⟩

/-! ## C8 — projectors and the canonical tree -/

theorem allLeavesTruthyList_forall (l : List HNode) :
    allLeavesTruthyList l = true ↔ ∀ c ∈ l, allLeavesTruthy c = true := by
  induction l with
  | nil => simp [allLeavesTruthyList]
  | cons c cs ih => simp [allLeavesTruthyList, ih]

theorem ensure_id_of_truthy : ∀ (t : HNode), allLeavesTruthy t = true →
    ∀ d, ensureNodeValues t d = t := by
  refine HNode.inductionOn _ ?_
  intro nm v cs i hih ht d
  cases cs with
  | none =>
    simp only [allLeavesTruthy] at ht
    show HNode.node nm (some (vOr v _)) none i = HNode.node nm v none i
    cases v with
    | none => simp [qTruthy] at ht
    | some q =>
      simp only [qTruthy, decide_eq_true_eq] at ht
      simp [vOr, ht]
  | some l =>
    cases l with
    | nil =>
      simp only [allLeavesTruthy] at ht
      show HNode.node nm (some (vOr v _)) (some (ensureNodeValuesList [] (d + 1))) i =
        HNode.node nm v (some []) i
      cases v with
      | none => simp [qTruthy] at ht
      | some q =>
        simp only [qTruthy, decide_eq_true_eq] at ht
        simp [vOr, ht, ensureNodeValuesList]
    | cons c cs2 =>
      show HNode.node nm v (some (ensureNodeValuesList (c :: cs2) (d + 1))) i =
        HNode.node nm v (some (c :: cs2)) i
      have ht2 : allLeavesTruthyList (c :: cs2) = true := ht
      rw [allLeavesTruthyList_forall] at ht2
      rw [ensureNodeValuesList_eq_map]
      congr 1
      congr 1
      calc (c :: cs2).map (ensureNodeValues · (d + 1))
          = (c :: cs2).map id := by
            apply List.map_congr_left
            intro c0 hc0
            exact hih c0 (by simpa using hc0) (ht2 c0 hc0) (d + 1)
        _ = c :: cs2 := List.map_id _

/-- C8, counterexample.  The hierarchical branch of `formatForTreeMap` runs
`ensureNodeValues` on the canonical tree itself and returns that same
object as its `data`: on a tree with a value-less leaf the returned tree
differs from the input, and — because the source mutates in place — the
caller's canonical tree now *is* this changed tree, contradicting both the
"leaves the canonical data unchanged" and the "shares no mutable
structure" halves of the claim. -/
theorem C8_counterexample_treemap_mutates :
    (formatForTreeMap (.tree aliasTree)).data = ensureNodeValues aliasTree 0 ∧
    ensureNodeValues aliasTree 0 = hn "R" none (some [hn "L" (some 80) none]) ∧
    hn "R" none (some [hn "L" (some 80) none]) ≠ aliasTree := by
  refine ⟨rfl, ?_, by simp [hn, aliasTree]⟩
  norm_num [ensureNodeValues, ensureNodeValuesList, aliasTree, hn, vOr]

theorem ensureList_ne_of_not_truthy : ∀ (l : List HNode),
    (∀ x ∈ l, ∀ d, allLeavesTruthy x = false → ensureNodeValues x d ≠ x) →
    ∀ d, allLeavesTruthyList l = false → ensureNodeValuesList l d ≠ l := by
  intro l
  induction l with
  | nil => intro _ d ht; simp [allLeavesTruthyList] at ht
  | cons c cs ih =>
    intro hall d ht heq
    simp only [ensureNodeValuesList, List.cons.injEq] at heq
    rcases Bool.and_eq_false_iff.mp ht with h1 | h1
    · exact hall c (List.mem_cons_self c cs) d h1 heq.1
    · exact ih (fun x hx => hall x (List.mem_cons_of_mem c hx)) d h1 heq.2

theorem ensure_ne_of_not_truthy : ∀ (t : HNode) (d : ℕ),
    allLeavesTruthy t = false → ensureNodeValues t d ≠ t := by
  refine HNode.inductionOn _ ?_
  intro nm v cs i hih d ht heq
  cases cs with
  | none =>
    have heq2 : HNode.node nm (some (vOr v
        (if ((100 : ℚ) - d * 20) ≠ 0 then (100 : ℚ) - d * 20 else 1))) none i =
        HNode.node nm v none i := heq
    simp only [HNode.node.injEq, true_and, and_true] at heq2
    have ht2 : qTruthy v = false := ht
    cases v with
    | none => simp at heq2
    | some q =>
      simp only [qTruthy] at ht2
      have hq0 : q = 0 := not_not.mp (of_decide_eq_false ht2)
      subst hq0
      simp only [Option.some.injEq] at heq2
      rw [show vOr (some (0 : ℚ))
          (if ((100 : ℚ) - d * 20) ≠ 0 then (100 : ℚ) - d * 20 else 1) =
          (if ((100 : ℚ) - d * 20) ≠ 0 then (100 : ℚ) - d * 20 else 1) from by
        simp [vOr]] at heq2
      split_ifs at heq2 with hz
      · exact hz heq2
      · norm_num at heq2
  | some l =>
    cases l with
    | nil =>
      have heq2 : HNode.node nm (some (vOr v
          (if ((100 : ℚ) - d * 20) ≠ 0 then (100 : ℚ) - d * 20 else 1)))
          (some (ensureNodeValuesList [] (d + 1))) i =
          HNode.node nm v (some []) i := heq
      simp only [HNode.node.injEq, true_and, and_true, ensureNodeValuesList,
        Option.some.injEq] at heq2
      have ht2 : qTruthy v = false := ht
      cases v with
      | none => simp at heq2
      | some q =>
        simp only [qTruthy] at ht2
        have hq0 : q = 0 := not_not.mp (of_decide_eq_false ht2)
        subst hq0
        simp only [Option.some.injEq] at heq2
        rw [show vOr (some (0 : ℚ))
            (if ((100 : ℚ) - d * 20) ≠ 0 then (100 : ℚ) - d * 20 else 1) =
            (if ((100 : ℚ) - d * 20) ≠ 0 then (100 : ℚ) - d * 20 else 1) from by
          simp [vOr]] at heq2
        split_ifs at heq2 with hz
        · exact hz heq2
        · norm_num at heq2
    | cons c cs2 =>
      have heq2 : HNode.node nm v (some (ensureNodeValuesList (c :: cs2) (d + 1))) i =
          HNode.node nm v (some (c :: cs2)) i := heq
      simp only [HNode.node.injEq, Option.some.injEq, true_and, and_true] at heq2
      have ht2 : allLeavesTruthyList (c :: cs2) = false := ht
      exact ensureList_ne_of_not_truthy (c :: cs2)
        (fun x hx => hih x (by simpa using hx)) (d + 1) ht2 heq2

/-- C8, as amended.  `formatForTreeMap`'s hierarchical branch returns
exactly `ensureNodeValues` of the canonical tree (which the source applies
in place, aliasing the canonical tree into the output).  The canonical data
is left unchanged exactly when every leaf already carries a truthy value:
then `ensureNodeValues` is the identity, and otherwise the returned — and,
in the source, the caller's — tree differs from the input. -/
theorem C8_treemap_aliases_ensured_tree :
    ∀ (t : HNode), t.children.isSome = true →
    (formatForTreeMap (.tree t)).data = ensureNodeValues t 0 ∧
    (allLeavesTruthy t = true → (formatForTreeMap (.tree t)).data = t) ∧
    (allLeavesTruthy t = false → (formatForTreeMap (.tree t)).data ≠ t) := by
  intro t hcs
  cases t with
  | node nm v cs i =>
    cases cs with
    | none => simp [HNode.children] at hcs
    | some l =>
      refine ⟨rfl, ?_, ?_⟩
      · intro ht
        show ensureNodeValues (HNode.node nm v (some l) i) 0 = HNode.node nm v (some l) i
        exact ensure_id_of_truthy _ ht 0
      · intro ht
        show ensureNodeValues (HNode.node nm v (some l) i) 0 ≠ HNode.node nm v (some l) i
        exact ensure_ne_of_not_truthy _ 0 ht

/-- C8, witness: on a tree whose leaves all carry truthy values the treemap
projector returns the canonical tree unchanged, and on a tree with a
value-less leaf it returns a tree different from the canonical one. -/
theorem C8_witness :
    (formatForTreeMap (.tree (hn "R" none (some [hn "L" (some 5) none])))).data =
      hn "R" none (some [hn "L" (some 5) none]) ∧
    (formatForTreeMap (.tree aliasTree)).data ≠ aliasTree :=
  ⟨(C8_treemap_aliases_ensured_tree (hn "R" none (some [hn "L" (some 5) none]))
      rfl).2.1 rfl,
   (C8_treemap_aliases_ensured_tree aliasTree rfl).2.2 rfl⟩

/-! ## C9 — network-graph edge synthesis -/

theorem simLinks_mem (nodes : List CompNode) (l : CompLink) :
    l ∈ ngComponentSimLinks nodes ↔
    l.source < l.target ∧ l.target < nodes.length ∧
    valueSimilarity (nodeValueAt nodes l.source) (nodeValueAt nodes l.target) > 7/10 ∧
    l.strength =
      valueSimilarity (nodeValueAt nodes l.source) (nodeValueAt nodes l.target) := by
  simp only [ngComponentSimLinks, List.mem_flatMap, List.mem_filterMap, List.mem_range]
  constructor
  · rintro ⟨i, _, j, hj, h⟩
    split_ifs at h with h1 h2
    · simp only [Option.some.injEq] at h
      subst h
      exact ⟨h1, hj, h2, rfl⟩
  · rintro ⟨h1, h2, h3, h4⟩
    refine ⟨l.source, by omega, l.target, h2, ?_⟩
    rw [if_pos h1, if_pos h3]
    cases l with
    | mk s t st =>
      simp only at h4
      simp [h4]

theorem ensureStep_subset (nodes : List CompNode) (links : List CompLink) (i : ℕ) :
    links ⊆ ensureStep nodes links i := by
  unfold ensureStep
  split_ifs
  · exact fun l hl => hl
  · cases closestIdx nodes i with
    | none => exact fun l hl => hl
    | some p =>
      cases p with
      | mk j d => exact fun l hl => by simp [hl]

theorem foldl_ensure_subset (nodes : List CompNode) :
    ∀ (is : List ℕ) (links : List CompLink),
    links ⊆ is.foldl (ensureStep nodes) links := by
  intro is
  induction is with
  | nil => intro links l hl; exact hl
  | cons j tl ih =>
    intro links l hl
    exact ih (ensureStep nodes links j) (ensureStep_subset nodes links j hl)

theorem closestStep_keeps (nodes : List CompNode) (i j : ℕ) (acc : Option (ℕ × ℚ))
    (h : acc.isSome = true) : (closestStep nodes i acc j).isSome = true := by
  cases acc with
  | none => simp at h
  | some p =>
    cases p with
    | mk jb db =>
      simp only [closestStep]
      split_ifs <;> rfl

theorem closestStep_other (nodes : List CompNode) (i j : ℕ) (acc : Option (ℕ × ℚ))
    (h : j ≠ i) : (closestStep nodes i acc j).isSome = true := by
  cases acc with
  | none =>
    simp only [closestStep]
    rw [if_neg h]
    rfl
  | some p => exact closestStep_keeps nodes i j (some p) rfl

theorem closestFold_isSome (nodes : List CompNode) (i : ℕ) :
    ∀ (tl : List ℕ) (acc : Option (ℕ × ℚ)), acc.isSome = true →
    (tl.foldl (closestStep nodes i) acc).isSome = true := by
  intro tl
  induction tl with
  | nil => intro acc h; exact h
  | cons j tl2 ih =>
    intro acc h
    exact ih _ (closestStep_keeps nodes i j acc h)

theorem closest_some_of_other (nodes : List CompNode) (i : ℕ) :
    ∀ (tl : List ℕ) (acc : Option (ℕ × ℚ)) (j : ℕ), j ∈ tl → j ≠ i →
    (tl.foldl (closestStep nodes i) acc).isSome = true := by
  intro tl
  induction tl with
  | nil => intro acc j hj; intro _; cases hj
  | cons j0 tl2 ih =>
    intro acc j hj hne
    rcases List.mem_cons.mp hj with rfl | h2
    · exact closestFold_isSome nodes i tl2 _ (closestStep_other nodes i j acc hne)
    · exact ih _ j h2 hne

theorem closestIdx_isSome (nodes : List CompNode) (i : ℕ)
    (hn2 : 2 ≤ nodes.length) : (closestIdx nodes i).isSome = true := by
  unfold closestIdx
  by_cases hi : i = 0
  · exact closest_some_of_other nodes i _ none 1
      (List.mem_range.mpr (by omega)) (by omega)
  · exact closest_some_of_other nodes i _ none 0
      (List.mem_range.mpr (by omega)) (Ne.symm hi)

theorem ensureStep_covers (nodes : List CompNode) (links : List CompLink) (i : ℕ)
    (hn2 : 2 ≤ nodes.length) :
    ∃ l ∈ ensureStep nodes links i, l.source = i ∨ l.target = i := by
  unfold ensureStep
  split_ifs with h
  · rcases List.any_eq_true.mp h with ⟨l, hl, hli⟩
    refine ⟨l, hl, ?_⟩
    rcases (Bool.or_eq_true _ _).mp hli with h1 | h1
    · exact Or.inl (of_decide_eq_true h1)
    · exact Or.inr (of_decide_eq_true h1)
  · cases hc : closestIdx nodes i with
    | none => exact absurd (closestIdx_isSome nodes i hn2) (by simp [hc])
    | some p =>
      cases p with
      | mk j d =>
        exact ⟨{ source := i, target := j, strength := 1/2 }, by simp, Or.inl rfl⟩

theorem foldl_ensure_covers (nodes : List CompNode) (hn2 : 2 ≤ nodes.length) :
    ∀ (is : List ℕ) (links : List CompLink) (i : ℕ), i ∈ is →
    ∃ l ∈ is.foldl (ensureStep nodes) links, l.source = i ∨ l.target = i := by
  intro is
  induction is with
  | nil => intro links i hi; cases hi
  | cons j tl ih =>
    intro links i hi
    rcases List.mem_cons.mp hi with rfl | h2
    · rcases ensureStep_covers nodes links i hn2 with ⟨l, hl, hli⟩
      exact ⟨l, foldl_ensure_subset nodes tl _ hl, hli⟩
    · exact ih _ i h2

theorem ngComponentNodes_length (items : List CanonicalRecord) :
    (ngComponentNodes items).length = items.length := by
  simp [ngComponentNodes]

/-- C9, counterexample.  The projector named by the claim,
`formatForNetworkGraph`, contains no similarity computation: on the flat
list A=10, B=1, C=1 it synthesises the consecutive chain A–B, B–C plus the
every-third extra edge A–C, even though the A–B and A–C value similarities
are `1 - 9/10 = 0.1 ≤ 0.7` — so "an edge exactly when similarity exceeds
0.7" is false of it. -/
theorem C9_counterexample_projector_chains :
    (formatForNetworkGraph (.flat
      [{ name := "A", value := some 10 }, { name := "B", value := some 1 },
       { name := "C", value := some 1 }])).links =
      [{ source := "A", target := "B", value := 1 },
       { source := "A", target := "C", value := 1/2 },
       { source := "B", target := "C", value := 1 }] ∧
    valueSimilarity 10 1 ≤ 7/10 := by
  refine ⟨rfl, ?_⟩
  norm_num [valueSimilarity]

/-- C9, as amended.  The similarity-based synthesis lives in the
NetworkGraph renderer component's flat-array branch, not in
`formatForNetworkGraph`: there, a phase-one edge joins `i < j` exactly when
their value similarity exceeds `0.7`, and the isolate pass then guarantees
every node of a ≥2-element list an incident edge.  On the scenario input
`[{A,10},{B,10}]` the component synthesises exactly the single edge `0–1`
(similarity 1), and `formatForNetworkGraph`'s chain also yields exactly one
`A–B` edge there. -/
theorem C9_component_similarity_synthesis :
    (∀ (items : List CanonicalRecord) (i j : ℕ),
      (∃ l ∈ ngComponentSimLinks (ngComponentNodes items),
        l.source = i ∧ l.target = j) ↔
      (i < j ∧ j < items.length ∧
        valueSimilarity (nodeValueAt (ngComponentNodes items) i)
          (nodeValueAt (ngComponentNodes items) j) > 7/10)) ∧
    (∀ (items : List CanonicalRecord), 2 ≤ items.length →
      ∀ i < items.length, ∃ l ∈ ngComponentLinks items,
        l.source = i ∨ l.target = i) ∧
    ngComponentLinks c9ScenarioItems = [{ source := 0, target := 1, strength := 1 }] ∧
    (formatForNetworkGraph (.flat c9ScenarioItems)).links =
      [{ source := "A", target := "B", value := 1 }] := by
  refine ⟨?_, ?_, ?_, rfl⟩
  · intro items i j
    constructor
    · rintro ⟨l, hl, h1, h2⟩
      rw [simLinks_mem] at hl
      rw [ngComponentNodes_length] at hl
      subst h1
      subst h2
      exact ⟨hl.1, hl.2.1, hl.2.2.1⟩
    · rintro ⟨h1, h2, h3⟩
      refine ⟨CompLink.mk i j
          (valueSimilarity (nodeValueAt (ngComponentNodes items) i)
            (nodeValueAt (ngComponentNodes items) j)), ?_, rfl, rfl⟩
      rw [simLinks_mem, ngComponentNodes_length]
      exact ⟨h1, h2, h3, rfl⟩
  · intro items h2 i hi
    unfold ngComponentLinks ngComponentEnsure
    refine foldl_ensure_covers (ngComponentNodes items) ?_ _ _ i ?_
    · rw [ngComponentNodes_length]; exact h2
    · rw [List.mem_range, ngComponentNodes_length]; exact hi
  · have hv0 : nodeValueAt (ngComponentNodes c9ScenarioItems) 0 = 10 := rfl
    have hv1 : nodeValueAt (ngComponentNodes c9ScenarioItems) 1 = 10 := rfl
    have hs : valueSimilarity 10 10 = 1 := by
      simp [valueSimilarity, sub_self, abs_zero, zero_div, max_self]
    have hgt : valueSimilarity (nodeValueAt (ngComponentNodes c9ScenarioItems) 0)
        (nodeValueAt (ngComponentNodes c9ScenarioItems) 1) > 7/10 := by
      rw [hv0, hv1, hs]
      norm_num
    have hrange : List.range (ngComponentNodes c9ScenarioItems).length = [0, 1] := rfl
    have hsl : ngComponentSimLinks (ngComponentNodes c9ScenarioItems) =
        [CompLink.mk 0 1
          (valueSimilarity (nodeValueAt (ngComponentNodes c9ScenarioItems) 0)
            (nodeValueAt (ngComponentNodes c9ScenarioItems) 1))] := by
      unfold ngComponentSimLinks
      rw [hrange]
      simp only [List.flatMap_cons, List.flatMap_nil, List.filterMap_cons,
        List.filterMap_nil, List.append_nil, hgt, if_true]
      norm_num
    show ngComponentEnsure (ngComponentNodes c9ScenarioItems)
        (ngComponentSimLinks (ngComponentNodes c9ScenarioItems)) = _
    rw [hsl]
    unfold ngComponentEnsure
    rw [hrange]
    simp only [List.foldl_cons, List.foldl_nil, ensureStep, List.any_cons,
      List.any_nil]
    norm_num
    rw [hv0, hv1, hs]

/-- C9, witness: the amended theorem applied at the scenario input (both
universally quantified parts instantiated on the two-element list). -/
theorem C9_witness :
    ((∃ l ∈ ngComponentSimLinks (ngComponentNodes c9ScenarioItems),
        l.source = 0 ∧ l.target = 1) ↔
      (0 < 1 ∧ 1 < c9ScenarioItems.length ∧
        valueSimilarity (nodeValueAt (ngComponentNodes c9ScenarioItems) 0)
          (nodeValueAt (ngComponentNodes c9ScenarioItems) 1) > 7/10)) ∧
    (∃ l ∈ ngComponentLinks c9ScenarioItems, l.source = 0 ∨ l.target = 0) :=
  ⟨C9_component_similarity_synthesis.1 c9ScenarioItems 0 1,
   C9_component_similarity_synthesis.2.1 c9ScenarioItems (by norm_num [c9ScenarioItems])
     0 (by norm_num [c9ScenarioItems])⟩

/-! ## C7 — level sums versus the tree total -/

theorem vOr_truthy (v : Option ℚ) (d : ℚ) (h : qTruthy v = true) : vOr v d = vOr v 0 := by
  cases v with
  | none => simp [qTruthy] at h
  | some q =>
    simp only [qTruthy, decide_eq_true_eq] at h
    simp [vOr, h]

theorem sumAtLevel_append (a b : List FlatRec) (lvl : ℕ) :
    sumAtLevel (a ++ b) lvl = sumAtLevel a lvl + sumAtLevel b lvl := by
  simp [sumAtLevel, List.filter_append]

theorem sumAtLevel_single_ne (r : FlatRec) (lvl : ℕ) (h : ¬ r.level = lvl) :
    sumAtLevel [r] lvl = 0 := by
  simp [sumAtLevel, h]

theorem flattenSumList : ∀ (l : List HNode),
    (∀ x ∈ l, ∀ (k level : ℕ) (path : String),
      allLeavesTruthy x = true → internalsValueFree x = true →
      allNamesNonempty x = true → uniformLeafDepth x k = true →
      sumAtLevel (flattenHierarchy x level path) (level + k) = calculateTotalValue x) →
    ∀ (k level : ℕ) (path : String),
      allLeavesTruthyList l = true → internalsValueFreeList l = true →
      allNamesNonemptyList l = true → uniformLeafDepthList l k = true →
      sumAtLevel (flattenHierarchyList l level path) (level + k) = totalValueList l := by
  intro l
  induction l with
  | nil =>
    intro _ k level path _ _ _ _
    simp [flattenHierarchyList, totalValueList, sumAtLevel]
  | cons c cs ih =>
    intro hall k level path h1 h2 h3 h4
    simp only [allLeavesTruthyList, Bool.and_eq_true] at h1
    simp only [internalsValueFreeList, Bool.and_eq_true] at h2
    simp only [allNamesNonemptyList, Bool.and_eq_true] at h3
    simp only [uniformLeafDepthList, Bool.and_eq_true] at h4
    simp only [flattenHierarchyList, totalValueList]
    rw [sumAtLevel_append]
    rw [hall c (List.mem_cons_self c cs) k level path h1.1 h2.1 h3.1 h4.1]
    rw [ih (fun x hx => hall x (List.mem_cons_of_mem c hx)) k level path h1.2 h2.2 h3.2 h4.2]

theorem flattenSumTree : ∀ (t : HNode) (k level : ℕ) (path : String),
    allLeavesTruthy t = true → internalsValueFree t = true →
    allNamesNonempty t = true → uniformLeafDepth t k = true →
    sumAtLevel (flattenHierarchy t level path) (level + k) = calculateTotalValue t := by
  intro t
  induction t using HNode.inductionOn with
  | h name value cs info ih =>
    cases cs with
    | none =>
      intro k level path h1 h2 h3 h4
      simp only [uniformLeafDepth, decide_eq_true_eq] at h4
      subst h4
      simp only [allLeavesTruthy] at h1
      simp only [allNamesNonempty, decide_eq_true_eq] at h3
      simp only [flattenHierarchy, calculateTotalValue]
      rw [if_pos h3]
      simp [sumAtLevel]
      exact vOr_truthy value _ h1
    | some l =>
      cases l with
      | nil =>
        intro k level path h1 h2 h3 h4
        simp only [uniformLeafDepth, decide_eq_true_eq] at h4
        subst h4
        simp only [allLeavesTruthy] at h1
        simp only [allNamesNonempty, Bool.and_eq_true, decide_eq_true_eq] at h3
        simp only [flattenHierarchy, flattenHierarchyList, calculateTotalValue,
          totalValueList]
        rw [if_pos h3.1]
        simp [sumAtLevel]
        exact vOr_truthy value _ h1
      | cons c cs2 =>
        intro k level path h1 h2 h3 h4
        simp only [uniformLeafDepth] at h4
        cases k with
        | zero => simp at h4
        | succ k2 =>
          simp only [internalsValueFree, Bool.and_eq_true] at h2
          have hvn : value = none := Option.isNone_iff_eq_none.mp h2.1
          subst hvn
          simp only [allNamesNonempty, Bool.and_eq_true, decide_eq_true_eq] at h3
          simp only [allLeavesTruthy] at h1
          simp only [Option.getD_some] at ih
          simp only [flattenHierarchy, calculateTotalValue]
          rw [if_pos h3.1]
          rw [sumAtLevel_append, sumAtLevel_single_ne _ _ (by simp)]
          rw [show level + (k2 + 1) = (level + 1) + k2 from by omega]
          rw [flattenSumList (c :: cs2) ih k2 (level + 1) _ h1 h2.2 h3.2 h4]
          simp [vOr]

/-- C7, counterexample.  In the skewed tree `R → {A(5), B → C(7)}` every
leaf carries an explicit numeric value, yet the leaf `A` sits at level 1
while `maxDepth` is 2, so the level-`maxDepth` slice of the flattened
records sums to `7` whereas `calculateTotalValue` is `12`. -/
theorem C7_counterexample_skewed_tree :
    allLeavesValued c7Counter = true ∧
    calculateMaxDepth c7Counter 0 = 2 ∧
    sumAtLevel (flattenHierarchy c7Counter 0 "") 2 = 7 ∧
    calculateTotalValue c7Counter = 12 ∧ (7 : ℚ) ≠ 12 := by
  refine ⟨rfl, rfl, ?_, ?_, by norm_num⟩
  · have hR : ¬ (("R" : String) = "") := by decide
    have hA : ¬ (("A" : String) = "") := by decide
    have hB : ¬ (("B" : String) = "") := by decide
    have hC : ¬ (("C" : String) = "") := by decide
    norm_num [c7Counter, hn, flattenHierarchy, flattenHierarchyList, sumAtLevel, vOr,
      hR, hA, hB, hC]
  · norm_num [c7Counter, hn, calculateTotalValue, totalValueList, vOr]

/-- C7, as amended.  The level-slice identity
`sum of value over flattenHierarchy records at level maxDepth =
calculateTotalValue` holds under the stated regime: every leaf carries a
truthy explicit value, internal nodes carry no value, every name is
non-empty, and all leaves sit at the same depth `calculateMaxDepth` — the
original claim's hypothesis (leaves explicitly valued) is not enough, see
the skewed-tree counterexample. -/
theorem C7_uniform_level_sum_equals_total (t : HNode)
    (h1 : allLeavesTruthy t = true) (h2 : internalsValueFree t = true)
    (h3 : allNamesNonempty t = true)
    (h4 : uniformLeafDepth t (calculateMaxDepth t 0) = true) :
    sumAtLevel (flattenHierarchy t 0 "") (calculateMaxDepth t 0) =
      calculateTotalValue t := by
  have h5 := flattenSumTree t (calculateMaxDepth t 0) 0 "" h1 h2 h3 h4
  rwa [Nat.zero_add] at h5

/-- C7, witness: the amended theorem applied to the uniform two-leaf tree
`Root → {A(5), B(7)}`. -/
theorem C7_witness :
    allLeavesTruthy c7Uniform = true ∧ internalsValueFree c7Uniform = true ∧
    allNamesNonempty c7Uniform = true ∧
    uniformLeafDepth c7Uniform (calculateMaxDepth c7Uniform 0) = true ∧
    sumAtLevel (flattenHierarchy c7Uniform 0 "") (calculateMaxDepth c7Uniform 0) =
      calculateTotalValue c7Uniform :=
  ⟨rfl, rfl, rfl, rfl, C7_uniform_level_sum_equals_total c7Uniform rfl rfl rfl rfl⟩

/-! ## C10 — DAG well-formedness -/

theorem charUpperBounds (c : Char) (h : ('A' ≤ c && c ≤ 'Z') = true) :
    65 ≤ c.toNat ∧ c.toNat ≤ 90 := by
  rw [Bool.and_eq_true, decide_eq_true_eq, decide_eq_true_eq] at h
  rw [Char.le_def] at h
  constructor
  · exact UInt32.le_toNat_of_le (by norm_num) h.1
  · exact UInt32.toNat_le_of_le (by norm_num) h.2

theorem charOfNatToNat (n : ℕ) (h1 : 97 ≤ n) (h2 : n ≤ 122) :
    (Char.ofNat n).toNat = n := by
  have hv : n.isValidChar := Or.inl (by omega)
  simp [Char.ofNat, hv, Char.ofNatAux, Char.toNat, UInt32.ofNat', UInt32.toNat,
    BitVec.toNat_ofNatLt]

theorem lowerChar_ne_dash (c : Char) (h : ¬ c = '-') : ¬ lowerChar c = '-' := by
  unfold lowerChar
  split_ifs with hc
  · intro heq
    have hb := charUpperBounds c hc
    have ht := congrArg Char.toNat heq
    rw [charOfNatToNat (c.toNat + 32) (by omega) (by omega)] at ht
    have hd : ('-').toNat = 45 := by decide
    omega
  · exact h

theorem mem_joinUnderscore : ∀ (segs : List (List Char)) (c : Char),
    c ∈ joinUnderscore segs → c = '_' ∨ ∃ s ∈ segs, c ∈ s := by
  intro segs
  induction segs with
  | nil => intro c hc; cases hc
  | cons s rest ih =>
    intro c hc
    cases rest with
    | nil => exact Or.inr ⟨s, List.mem_cons_self s [], hc⟩
    | cons r2 rest2 =>
      have hc2 : c ∈ s ++ '_' :: joinUnderscore (r2 :: rest2) := hc
      rcases List.mem_append.mp hc2 with h1 | h1
      · exact Or.inr ⟨s, List.mem_cons_self _ _, h1⟩
      · rcases List.mem_cons.mp h1 with h2 | h2
        · exact Or.inl h2
        · rcases ih c h2 with h3 | ⟨s2, hs2, hcs2⟩
          · exact Or.inl h3
          · exact Or.inr ⟨s2, List.mem_cons_of_mem _ hs2, hcs2⟩

theorem mem_splitRuns (p : Char → Bool) : ∀ (fuel : ℕ) (l s : List Char),
    s ∈ splitRuns p fuel l → ∀ c ∈ s, c ∈ l := by
  intro fuel
  induction fuel with
  | zero => intro l s hs; simp [splitRuns] at hs
  | succ f ih =>
    intro l s hs c hc
    cases l with
    | nil => simp [splitRuns] at hs
    | cons a as =>
      simp only [splitRuns] at hs
      rcases List.mem_cons.mp hs with h1 | h1
      · subst h1
        exact (List.takeWhile_sublist _).subset hc
      · have h2 := ih _ s h1 c hc
        have h3 := (List.dropWhile_sublist p).subset h2
        exact (List.drop_sublist _ _).subset h3

theorem slug_no_dash (name : String) : ∀ c ∈ chars (slugify name), ¬ c = '-' := by
  intro c hc
  have hc2 : c ∈ collapseWsToUnderscore (lowerStr (jsTrim ((chars name).filter
      fun c => jsWord c || jsWs c))) := hc
  unfold collapseWsToUnderscore at hc2
  rcases mem_joinUnderscore _ c hc2 with h1 | ⟨s, hs, hcs⟩
  · subst h1
    decide
  · have h2 : c ∈ lowerStr (jsTrim ((chars name).filter fun c => jsWord c || jsWs c)) :=
      mem_splitRuns jsWs _ _ s hs c hcs
    rcases List.mem_map.mp h2 with ⟨c0, hc0, hlc⟩
    have h3 : c0 ∈ (chars name).filter fun c => jsWord c || jsWs c := by
      have h4 := (List.dropWhile_sublist jsWs).subset (List.mem_reverse.mp hc0)
      exact (List.dropWhile_sublist jsWs).subset (List.mem_reverse.mp h4)
    have h5 := List.of_mem_filter h3
    have h6 : ¬ c0 = '-' := by
      intro he
      subst he
      simp [jsWord, jsWs] at h5
    rw [← hlc]
    exact lowerChar_ne_dash c0 h6

theorem string_append_left_cancel {a x y : String} (h : a ++ x = a ++ y) : x = y := by
  have hd := congrArg String.data h
  simp only [String.data_append] at hd
  exact String.ext (List.append_cancel_left hd)

theorem dashfree_append_inj : ∀ (xs ys : List Char), ('-' ∉ xs) → ('-' ∉ ys) →
    ∀ (b b2 : List Char), xs ++ '-' :: b = ys ++ '-' :: b2 → xs = ys ∧ b = b2 := by
  intro xs
  induction xs with
  | nil =>
    intro ys _ hy b b2 h
    cases ys with
    | nil => simpa using h
    | cons y ys2 =>
      simp only [List.nil_append, List.cons_append, List.cons.injEq] at h
      exact absurd (by rw [← h.1]; exact List.mem_cons_self _ _) hy
  | cons x xs2 ih =>
    intro ys hx hy b b2 h
    cases ys with
    | nil =>
      simp only [List.cons_append, List.nil_append, List.cons.injEq] at h
      exact absurd (by rw [h.1]; exact List.mem_cons_self _ _) hx
    | cons y ys2 =>
      simp only [List.cons_append, List.cons.injEq] at h
      obtain ⟨hxy, hrest⟩ := h
      have h7 := ih ys2 (fun hm => hx (List.mem_cons_of_mem x hm))
        (fun hm => hy (List.mem_cons_of_mem y hm)) b b2 hrest
      exact ⟨by rw [hxy, h7.1], h7.2⟩

theorem dash_append_str_inj (a b a2 b2 : String)
    (ha : ∀ c ∈ chars a, ¬ c = '-') (ha2 : ∀ c ∈ chars a2, ¬ c = '-')
    (h : a ++ "-" ++ b = a2 ++ "-" ++ b2) : a = a2 ∧ b = b2 := by
  have hd := congrArg String.data h
  simp only [String.data_append] at hd
  simp only [List.append_assoc, List.singleton_append] at hd
  have hxs : '-' ∉ a.data := fun hm => ha '-' hm rfl
  have hys : '-' ∉ a2.data := fun hm => ha2 '-' hm rfl
  have h2 := dashfree_append_inj a.data a2.data hxs hys b.data b2.data hd
  exact ⟨String.ext h2.1, String.ext h2.2⟩

theorem digitsToNat_append_digit (a : List Char) (c : Char) :
    digitsToNat (a ++ [c]) = digitsToNat a * 10 + (c.toNat - ('0').toNat) := by
  simp [digitsToNat, List.foldl_append]

theorem digitChar_val (d : ℕ) (h : d < 10) :
    (Nat.digitChar d).toNat - ('0').toNat = d := by
  interval_cases d <;> decide

theorem digitsToNat_natDigits (n : ℕ) : digitsToNat (natDigits n) = n := by
  induction n using Nat.strong_induction_on with
  | _ n ih =>
    rw [natDigits]
    split_ifs with h
    · have h0 : ('0').toNat = 48 := by decide
      simp only [digitsToNat, List.foldl_cons, List.foldl_nil, h0]
      interval_cases n <;> decide
    · rw [digitsToNat_append_digit]
      rw [ih (n / 10) (Nat.div_lt_self (by omega) (by omega))]
      rw [digitChar_val (n % 10) (Nat.mod_lt _ (by omega))]
      omega

theorem natStr_inj {m n : ℕ} (h : natStr m = natStr n) : m = n := by
  have hd : natDigits m = natDigits n := congrArg String.data h
  have h2 := congrArg digitsToNat hd
  rwa [digitsToNat_natDigits, digitsToNat_natDigits] at h2

theorem prefix_natStr_inj (pre : String) : Function.Injective
    (fun i : ℕ => pre ++ natStr i) := by
  intro i j h
  exact natStr_inj (string_append_left_cancel h)

theorem dagAddNode_nodes_mono (st : DagSt) (name id : String) (v : Option ℚ)
    (level : ℕ) : ∀ nd ∈ st.nodes, nd ∈ (dagAddNode st name id v level).nodes := by
  intro nd hnd
  unfold dagAddNode
  split_ifs
  · exact hnd
  · exact List.mem_append_left _ hnd

theorem dagAddNode_links (st : DagSt) (name id : String) (v : Option ℚ) (level : ℕ) :
    (dagAddNode st name id v level).links = st.links := by
  unfold dagAddNode
  split_ifs <;> rfl

theorem dagAddNode_has (st : DagSt) (name id : String) (v : Option ℚ) (level : ℕ) :
    ∃ nd ∈ (dagAddNode st name id v level).nodes, nd.id = id := by
  unfold dagAddNode
  split_ifs with h
  · rcases List.any_eq_true.mp h with ⟨nd, hnd, hh⟩
    exact ⟨nd, hnd, of_decide_eq_true hh⟩
  · exact ⟨_, List.mem_append_right _ (List.mem_singleton_self _), rfl⟩

theorem dagAddLink_nodes (st : DagSt) (pid : Option String) (id : String) :
    (dagAddLink st pid id).nodes = st.nodes := by
  unfold dagAddLink
  cases pid with
  | none => rfl
  | some p =>
    simp only
    split_ifs <;> rfl

theorem dagAddNode_inv (st : DagSt) (name id : String) (v : Option ℚ) (level : ℕ)
    (hinv : DagInv st) (hid : ∀ c ∈ chars id, ¬ c = '-') :
    DagInv (dagAddNode st name id v level) := by
  unfold DagInv at hinv ⊢
  unfold dagAddNode
  split_ifs with h
  · exact hinv
  obtain ⟨h1, h2, h3, h4⟩ := hinv
  refine ⟨?_, h2, ?_, ?_⟩
  · simp only [List.map_append, List.map_cons, List.map_nil]
    rw [List.nodup_append]
    refine ⟨h1, List.nodup_singleton _, ?_⟩
    intro a ha hb
    simp only [List.mem_singleton] at hb
    subst hb
    rcases List.mem_map.mp ha with ⟨nd, hnd, hnid⟩
    exact absurd (List.any_eq_true.mpr ⟨nd, hnd, by simp [hnid]⟩) h
  · intro l hl
    obtain ⟨⟨nd1, hnd1, he1⟩, ⟨nd2, hnd2, he2⟩⟩ := h3 l hl
    exact ⟨⟨nd1, List.mem_append_left _ hnd1, he1⟩,
      ⟨nd2, List.mem_append_left _ hnd2, he2⟩⟩
  · intro nd hnd
    rcases List.mem_append.mp hnd with h5 | h5
    · exact h4 nd h5
    · simp only [List.mem_singleton] at h5
      subst h5
      exact hid

theorem dagAddLink_inv (st : DagSt) (pid : Option String) (id : String)
    (hinv : DagInv st)
    (hpid : ∀ p, pid = some p → ∃ nd ∈ st.nodes, nd.id = p)
    (hid : ∃ nd ∈ st.nodes, nd.id = id) :
    DagInv (dagAddLink st pid id) := by
  unfold DagInv at hinv ⊢
  unfold dagAddLink
  cases pid with
  | none => exact hinv
  | some p =>
    simp only
    split_ifs with h
    · exact hinv
    obtain ⟨h1, h2, h3, h4⟩ := hinv
    refine ⟨h1, ?_, ?_, h4⟩
    · simp only [List.map_append, List.map_cons, List.map_nil]
      rw [List.nodup_append]
      refine ⟨h2, List.nodup_singleton _, ?_⟩
      intro a ha hb
      simp only [List.mem_singleton] at hb
      subst hb
      rcases List.mem_map.mp ha with ⟨l, hlm, hlid⟩
      exact absurd (List.any_eq_true.mpr ⟨l, hlm, by simp [hlid]⟩) h
    · intro l hl
      rcases List.mem_append.mp hl with h5 | h5
      · exact h3 l h5
      · simp only [List.mem_singleton] at h5
        subst h5
        exact ⟨hpid p rfl, hid⟩

theorem dagTraverse_eq_none (st : DagSt) (name : String) (value : Option ℚ)
    (info : Option String) (pid : Option String) (lvl : ℕ) :
    dagTraverse st (.node name value none info) pid lvl =
    if name = "" then st
    else if slugify name = "" then st
    else dagAddLink (dagAddNode st name (slugify name) value lvl)
      pid (slugify name) := rfl

theorem dagTraverse_eq_some (st : DagSt) (name : String) (value : Option ℚ)
    (l : List HNode) (info : Option String) (pid : Option String) (lvl : ℕ) :
    dagTraverse st (.node name value (some l) info) pid lvl =
    if name = "" then st
    else if slugify name = "" then st
    else dagTraverseList
      (dagAddLink (dagAddNode st name (slugify name) value lvl) pid (slugify name))
      l (slugify name) (lvl + 1) := rfl

theorem dagTraverseList_nodes_mono_aux : ∀ (l : List HNode),
    (∀ x ∈ l, ∀ (st : DagSt) (pid : Option String) (lvl : ℕ),
      ∀ nd ∈ st.nodes, nd ∈ (dagTraverse st x pid lvl).nodes) →
    ∀ (st : DagSt) (pid : String) (lvl : ℕ),
    ∀ nd ∈ st.nodes, nd ∈ (dagTraverseList st l pid lvl).nodes := by
  intro l
  induction l with
  | nil => intro _ st pid lvl nd hnd; exact hnd
  | cons c cs ih =>
    intro hall st pid lvl nd hnd
    simp only [dagTraverseList]
    exact ih (fun x hx => hall x (List.mem_cons_of_mem c hx)) _ pid lvl nd
      (hall c (List.mem_cons_self c cs) st (some pid) lvl nd hnd)

theorem dagTraverse_nodes_mono : ∀ (t : HNode) (st : DagSt) (pid : Option String)
    (lvl : ℕ), ∀ nd ∈ st.nodes, nd ∈ (dagTraverse st t pid lvl).nodes := by
  intro t
  induction t using HNode.inductionOn with
  | h name value cs info ih =>
    intro st pid lvl nd hnd
    have hnd2 : nd ∈ (dagAddLink (dagAddNode st name (slugify name) value lvl)
        pid (slugify name)).nodes := by
      rw [dagAddLink_nodes]
      exact dagAddNode_nodes_mono st name (slugify name) value lvl nd hnd
    cases cs with
    | none =>
      rw [dagTraverse_eq_none]
      split_ifs with h1 h2
      · exact hnd
      · exact hnd
      · exact hnd2
    | some l =>
      rw [dagTraverse_eq_some]
      split_ifs with h1 h2
      · exact hnd
      · exact hnd
      · simp only [Option.getD_some] at ih
        exact dagTraverseList_nodes_mono_aux l ih _ _ _ nd hnd2

theorem dagTraverseList_inv_aux : ∀ (l : List HNode),
    (∀ x ∈ l, ∀ (st : DagSt) (pid : Option String) (lvl : ℕ),
      DagInv st → (∀ p, pid = some p → ∃ nd ∈ st.nodes, nd.id = p) →
      DagInv (dagTraverse st x pid lvl)) →
    ∀ (st : DagSt) (pid : String) (lvl : ℕ),
    DagInv st → (∃ nd ∈ st.nodes, nd.id = pid) →
    DagInv (dagTraverseList st l pid lvl) := by
  intro l
  induction l with
  | nil => intro _ st pid lvl hinv _; exact hinv
  | cons c cs ih =>
    intro hall st pid lvl hinv hpid
    simp only [dagTraverseList]
    refine ih (fun x hx => hall x (List.mem_cons_of_mem c hx)) _ pid lvl ?_ ?_
    · refine hall c (List.mem_cons_self c cs) st (some pid) lvl hinv ?_
      intro p hp
      rw [Option.some.injEq] at hp
      exact hp ▸ hpid
    · obtain ⟨nd, hnd, hid⟩ := hpid
      exact ⟨nd, dagTraverse_nodes_mono c st (some pid) lvl nd hnd, hid⟩

theorem dagTraverse_inv : ∀ (t : HNode) (st : DagSt) (pid : Option String) (lvl : ℕ),
    DagInv st → (∀ p, pid = some p → ∃ nd ∈ st.nodes, nd.id = p) →
    DagInv (dagTraverse st t pid lvl) := by
  intro t
  induction t using HNode.inductionOn with
  | h name value cs info ih =>
    intro st pid lvl hinv hpid
    have hnd : ∀ c ∈ chars (slugify name), ¬ c = '-' := slug_no_dash name
    have ha := dagAddNode_inv st name (slugify name) value lvl hinv hnd
    have hhas := dagAddNode_has st name (slugify name) value lvl
    have hpid2 : ∀ p, pid = some p →
        ∃ nd ∈ (dagAddNode st name (slugify name) value lvl).nodes, nd.id = p := by
      intro p hp
      obtain ⟨nd, hnd3, hni⟩ := hpid p hp
      exact ⟨nd, dagAddNode_nodes_mono st name (slugify name) value lvl nd hnd3, hni⟩
    have hb := dagAddLink_inv (dagAddNode st name (slugify name) value lvl)
      pid (slugify name) ha hpid2 hhas
    have hkeep : ∃ nd ∈ (dagAddLink (dagAddNode st name (slugify name) value lvl)
        pid (slugify name)).nodes, nd.id = slugify name := by
      rw [dagAddLink_nodes]
      exact hhas
    cases cs with
    | none =>
      rw [dagTraverse_eq_none]
      split_ifs with h1 h2
      · exact hinv
      · exact hinv
      · exact hb
    | some l =>
      rw [dagTraverse_eq_some]
      split_ifs with h1 h2
      · exact hinv
      · exact hinv
      · simp only [Option.getD_some] at ih
        exact dagTraverseList_inv_aux l ih _ _ _ hb hkeep

theorem dagChain_id_nodup (ns : List DagNode)
    (hnd : (ns.map (·.id)).Nodup)
    (hdf : ∀ nd ∈ ns, ∀ c ∈ chars nd.id, ¬ c = '-') :
    ((dagChain ns).map (·.id)).Nodup := by
  unfold dagChain
  rw [List.map_filterMap]
  refine List.Nodup.filterMap ?_ (List.nodup_range _)
  intro a b s hsa hsb
  cases hga : ns.get? a with
  | none => rw [hga] at hsa; simp at hsa
  | some x =>
  cases hga1 : ns.get? (a + 1) with
  | none => rw [hga, hga1] at hsa; simp at hsa
  | some y =>
  cases hgb : ns.get? b with
  | none => rw [hgb] at hsb; simp at hsb
  | some x2 =>
  cases hgb1 : ns.get? (b + 1) with
  | none => rw [hgb, hgb1] at hsb; simp at hsb
  | some y2 =>
  rw [hga, hga1] at hsa
  rw [hgb, hgb1] at hsb
  simp only [Option.map_some', Option.mem_def, Option.some.injEq] at hsa hsb
  have heq : x.id ++ "-" ++ y.id = x2.id ++ "-" ++ y2.id := by
    rw [hsa, hsb]
  have hx := List.get?_mem hga
  have hx2 := List.get?_mem hgb
  have hinj := dash_append_str_inj x.id y.id x2.id y2.id (hdf x hx) (hdf x2 hx2) heq
  obtain ⟨ha, hgeta⟩ := List.get?_eq_some.mp hga
  obtain ⟨hb, hgetb⟩ := List.get?_eq_some.mp hgb
  have hq : (ns.map (·.id)).get? a = (ns.map (·.id)).get? b := by
    rw [List.get?_map, List.get?_map, hga, hgb]
    simp [hinj.1]
  rcases lt_trichotomy a b with h | h | h
  · exfalso
    have h9 := List.nodup_iff_getElem?_ne_getElem?.mp hnd a b h (by simpa using hb)
    rw [List.get?_eq_getElem?, List.get?_eq_getElem?] at hq
    exact h9 hq
  · exact h
  · exfalso
    have h9 := List.nodup_iff_getElem?_ne_getElem?.mp hnd b a h (by simpa using ha)
    rw [List.get?_eq_getElem?, List.get?_eq_getElem?] at hq
    exact h9 hq.symm

theorem dagChain_endpoints (ns : List DagNode) :
    ∀ l ∈ dagChain ns, (∃ nd ∈ ns, nd.id = l.source) ∧ (∃ nd ∈ ns, nd.id = l.target) := by
  intro l hl
  unfold dagChain at hl
  rcases List.mem_filterMap.mp hl with ⟨i, hi, hfi⟩
  cases hga : ns.get? i with
  | none => rw [hga] at hfi; simp at hfi
  | some x =>
  cases hga1 : ns.get? (i + 1) with
  | none => rw [hga, hga1] at hfi; simp at hfi
  | some y =>
  rw [hga, hga1] at hfi
  simp only [Option.some.injEq] at hfi
  subst hfi
  exact ⟨⟨x, List.get?_mem hga, rfl⟩, ⟨y, List.get?_mem hga1, rfl⟩⟩

theorem dagOut_wf_of_inv (st : DagSt) (hinv : DagInv st) :
    dagWellFormed (DagOut.mk st.nodes
      (if !st.nodes.isEmpty && st.links.isEmpty then dagChain st.nodes
        else st.links)) := by
  unfold DagInv at hinv
  obtain ⟨h1, h2, h3, h4⟩ := hinv
  unfold dagWellFormed
  refine ⟨h1, ?_, ?_⟩
  · split_ifs with h
    · exact dagChain_id_nodup st.nodes h1 h4
    · exact h2
  · split_ifs with h
    · exact dagChain_endpoints st.nodes
    · exact h3

theorem dagFromArray_wf (recs : List CanonicalRecord) :
    dagWellFormed (formatForDAG.dagFromArray recs) := by
  unfold formatForDAG.dagFromArray dagWellFormed
  refine ⟨?_, ?_, ?_⟩
  · have h1 : ((recs.enum.map fun p =>
        ({ id := "node_" ++ natStr p.1,
           name := if p.2.name ≠ "" then p.2.name else "Item " ++ natStr (p.1 + 1),
           value := vOr p.2.value 10, level := 0 } : DagNode)).map (·.id)) =
        (recs.enum.map Prod.fst).map fun i => "node_" ++ natStr i := by
      simp only [List.map_map]
      rfl
    rw [h1, List.enum_map_fst]
    exact List.Nodup.map (prefix_natStr_inj "node_") (List.nodup_range _)
  · have h1 : (((List.range (recs.length - 1)).map fun i =>
        ({ id := "link_" ++ natStr i, source := "node_" ++ natStr i,
           target := "node_" ++ natStr (i + 1), value := 1 } : DagLink)).map (·.id)) =
        (List.range (recs.length - 1)).map fun i => "link_" ++ natStr i := by
      simp only [List.map_map]
      rfl
    rw [h1]
    exact List.Nodup.map (prefix_natStr_inj "link_") (List.nodup_range _)
  · intro l hl
    simp only [List.mem_map, List.mem_range] at hl
    obtain ⟨i, hi, rfl⟩ := hl
    have hlen : i + 1 < recs.length := by omega
    constructor
    · refine ⟨_, List.mem_map.mpr ⟨(i, recs.get ⟨i, by omega⟩), ?_, rfl⟩, ?_⟩
      · exact List.mem_enum_iff_get?.mpr (List.get?_eq_get (by omega))
      · rfl
    · refine ⟨_, List.mem_map.mpr ⟨(i + 1, recs.get ⟨i + 1, hlen⟩), ?_, rfl⟩, ?_⟩
      · exact List.mem_enum_iff_get?.mpr (List.get?_eq_get hlen)
      · rfl

theorem dagFallback_wf : dagWellFormed (formatForDAG.dagFallback) := by
  unfold formatForDAG.dagFallback dagWellFormed
  refine ⟨?_, ?_, ?_⟩
  · decide
  · decide
  · decide

/-- C10: for every input to the DAG projector — hierarchy tree, flat array,
raw passthrough array, or the fallback case — the returned `{nodes, links}`
is well-formed: node ids are pairwise distinct, link ids are pairwise
distinct, and every link endpoint is the id of a returned node. -/
theorem C10_dag_output_well_formed (d : CData) : dagWellFormed (formatForDAG d) := by
  have hinv0 : DagInv {} := by
    unfold DagInv
    refine ⟨List.nodup_nil, List.nodup_nil, ?_, ?_⟩
    · intro x hx
      exact absurd hx (List.not_mem_nil x)
    · intro x hx
      exact absurd hx (List.not_mem_nil x)
  cases d with
  | tree t =>
    cases t with
    | node n v cs i =>
      cases cs with
      | none => exact dagFallback_wf
      | some l =>
        exact dagOut_wf_of_inv (dagTraverse {} (.node n v (some l) i) none 0)
          (dagTraverse_inv (.node n v (some l) i) {} none 0 hinv0
            (fun p hp => Option.noConfusion hp))
  | flat recs => exact dagFromArray_wf recs
  | raw xs => exact dagFromArray_wf (xs.map rawRecView)

end DataTails
